import Mathlib

/-!
Verification development for the index-relevance selection phase of a
document-database query planner (`planner_ixselect.cpp`).

The predicate tree, index catalog and the five passes (path collection,
candidate filtering, the compatibility oracle, relevance tagging, and the
text-constraint enforcer) are embedded as executable Lean definitions that
mirror the source line by line.  Fatal assertions (`verify` / `invariant`)
are modelled by `Option`: a `none` result is an aborted planning attempt.
-/

namespace MongoIx

/-- Match-expression node kinds, as in the source's `MatchExpression::MatchType`. -/
inductive MatchType where
  | AND | OR | NOR | NOT
  | ELEM_MATCH_OBJECT | ELEM_MATCH_VALUE | ALL
  | EQ | LTE | LT | GT | GTE
  | REGEX | MOD | EXISTS | MATCH_IN | TYPE_OPERATOR
  | GEO | GEO_NEAR | TEXT
deriving DecidableEq

/-- A BSON value as far as this phase inspects one: a number or a string.
Key-pattern elements are numbers (ordinary ascending/descending keys) or
strings (special index families); `infoObj` options are numbers. -/
inductive BSONValue where
  | num (q : Rat)
  | str (s : String)
deriving DecidableEq

/-- `elt.type() == String` test on a BSON value. -/
def BSONValue.isStr : BSONValue → Bool
  | .str _ => true
  | .num _ => false

/-- `elt.String()`: the string payload (only queried after an `isStr` test). -/
def BSONValue.strVal : BSONValue → String
  | .str s => s
  | .num _ => ""

/-- Coordinate reference system of a geometry, as in the source's `CRS` enum. -/
inductive CRS where
  | FLAT | SPHERE
deriving DecidableEq

/-- Predicate kind of a geo query (`GeoQuery::WITHIN` / `GeoQuery::INTERSECT`). -/
inductive GeoPred where
  | WITHIN | INTERSECT
deriving DecidableEq

/-- A circle: centre coordinates and radius (the source's `Circle`). -/
structure Circle where
  x : Rat
  y : Rat
  radius : Rat
deriving DecidableEq

/-- The `_cap` member of a `GeometryContainer`: a circle plus the CRS it was
parsed under (`$center` gives FLAT, `$centerSphere` gives SPHERE). -/
structure CapData where
  crs : CRS
  circle : Circle
deriving DecidableEq

/-- Payload of a GEO leaf: the facts about its `GeoQuery` that `compatible`
inspects (predicate kind, region capabilities, the optional cap). -/
structure GeoPayload where
  pred : GeoPred
  hasS2Region : Bool
  hasFlatRegion : Bool
  cap : Option CapData
deriving DecidableEq

/-- Payload of a GEO_NEAR leaf: reference-point CRS and the `isNearSphere` flag. -/
structure NearPayload where
  crs : CRS
  isNearSphere : Bool
deriving DecidableEq

/-- Leaf-specific payload: equality leaves record whether the compared value is
null; geo leaves carry their geometry facts.  Other nodes carry `plain`. -/
inductive Payload where
  | plain
  | eqVal (isNull : Bool)
  | geo (g : GeoPayload)
  | near (g : NearPayload)
deriving DecidableEq

/-- The `RelevantTag` attached to an indexable node: the full path it was
computed for, the indexes usable with the predicate in first position, and
those usable in a later position. -/
structure RelevantTag where
  path : String
  first : List Nat
  notFirst : List Nat
deriving DecidableEq

mutual
/-- A match-expression node: kind, own field path, leaf payload, the optional
`RelevantTag` annotation, and ordered children. -/
inductive MatchExpression where
  | node (mt : MatchType) (path : String) (payload : Payload)
         (tag : Option RelevantTag) (children : MEList)
/-- An ordered list of match-expression children. -/
inductive MEList where
  | nil
  | cons (hd : MatchExpression) (tl : MEList)
end

/-- Node kind accessor (`matchType()`). -/
def MatchExpression.mt : MatchExpression → MatchType
  | .node m _ _ _ _ => m

/-- Own field path accessor (`path()`). -/
def MatchExpression.path : MatchExpression → String
  | .node _ p _ _ _ => p

/-- Leaf payload accessor. -/
def MatchExpression.payload : MatchExpression → Payload
  | .node _ _ pl _ _ => pl

/-- Tag accessor (`getTag()`). -/
def MatchExpression.getTag : MatchExpression → Option RelevantTag
  | .node _ _ _ tg _ => tg

/-- Children accessor. -/
def MatchExpression.children : MatchExpression → MEList
  | .node _ _ _ _ cs => cs

/-- `getChild(0)`.  On a childless node this returns the node itself; every
use in the source is guarded so that the child exists. -/
def MatchExpression.child0 : MatchExpression → MatchExpression
  | .node _ _ _ _ (.cons c _) => c
  | t => t

/-- Replace the node's tag (`setTag`). -/
def MatchExpression.withTag : MatchExpression → Option RelevantTag → MatchExpression
  | .node m p pl _ cs, tg => .node m p pl tg cs

/-- Replace the node's children. -/
def MatchExpression.withChildren : MatchExpression → MEList → MatchExpression
  | .node m p pl tg _, cs => .node m p pl tg cs

/-- Set the tag of the first child (`getChild(0)->setTag(...)`). -/
def MatchExpression.withChild0Tag : MatchExpression → Option RelevantTag → MatchExpression
  | .node m p pl tg (.cons c cs), tg2 => .node m p pl tg (.cons (c.withTag tg2) cs)
  | t, _ => t

/-- `getData().isNull()` on an equality leaf. -/
def MatchExpression.eqDataIsNull (t : MatchExpression) : Bool :=
  match t.payload with
  | .eqVal b => b
  | _ => false

/-- Geo payload accessors, with harmless defaults for non-geo nodes (the
source only reads them after a matching `matchType` test). -/
def MatchExpression.geoPred (t : MatchExpression) : GeoPred :=
  match t.payload with
  | .geo g => g.pred
  | _ => .INTERSECT

/-- `getGeometry().hasS2Region()`. -/
def MatchExpression.geoHasS2Region (t : MatchExpression) : Bool :=
  match t.payload with
  | .geo g => g.hasS2Region
  | _ => false

/-- `getGeometry().hasFlatRegion()`. -/
def MatchExpression.geoHasFlatRegion (t : MatchExpression) : Bool :=
  match t.payload with
  | .geo g => g.hasFlatRegion
  | _ => false

/-- `getGeometry()._cap`. -/
def MatchExpression.geoCap (t : MatchExpression) : Option CapData :=
  match t.payload with
  | .geo g => g.cap
  | _ => none

/-- `getData().centroid.crs` of a GEO_NEAR leaf. -/
def MatchExpression.nearCrs (t : MatchExpression) : CRS :=
  match t.payload with
  | .near g => g.crs
  | _ => .FLAT

/-- `getData().isNearSphere` of a GEO_NEAR leaf. -/
def MatchExpression.isNearSphere (t : MatchExpression) : Bool :=
  match t.payload with
  | .near g => g.isNearSphere
  | _ => false

/-- Index classification enum (`IndexType`), redundantly stored next to the
key pattern to guard legacy string-valued key patterns. -/
inductive IndexType where
  | INDEX_BTREE | INDEX_2D | INDEX_HAYSTACK | INDEX_2DSPHERE | INDEX_TEXT | INDEX_HASHED
deriving DecidableEq

/-- An index catalog entry: ordered key pattern, multikey and sparse flags,
classification, and the auxiliary options object. -/
structure IndexEntry where
  keyPattern : List (String × BSONValue)
  multikey : Bool
  sparse : Bool
  type : IndexType
  infoObj : List (String × BSONValue)

/-- Special index family name strings (`IndexNames`). -/
def IndexNames.HASHED : String := "hashed"

/-- `IndexNames::GEO_2DSPHERE`. -/
def IndexNames.GEO_2DSPHERE : String := "2dsphere"

/-- `IndexNames::GEO_2D`. -/
def IndexNames.GEO_2D : String := "2d"

/-- `IndexNames::TEXT`. -/
def IndexNames.TEXT : String := "text"

/-- `IndexNames::GEO_HAYSTACK`. -/
def IndexNames.GEO_HAYSTACK : String := "geoHaystack"

/-- Modelled from the spec: `Indexability::arrayUsesIndexOnChildren` (the
header is not part of the sources here).  The array-structural operators
whose children's paths are relative to the node's own field, i.e.
`$elemMatch` over objects and `$all`. -/
def arrayUsesIndexOnChildren (t : MatchExpression) : Bool :=
  t.mt = .ELEM_MATCH_OBJECT ∨ t.mt = .ALL

/-- Modelled from the spec: the leaf predicate kinds (equality, comparisons,
IN, regex, mod, exists, type, text, geo-within/intersect, geo-near). -/
def isLeafKind : MatchType → Bool
  | .EQ | .LTE | .LT | .GT | .GTE => true
  | .REGEX | .MOD | .EXISTS | .MATCH_IN | .TYPE_OPERATOR => true
  | .GEO | .GEO_NEAR | .TEXT => true
  | _ => false

/-- Modelled from the spec: `Indexability::nodeCanUseIndexOnOwnField` — an
own-field indexable predicate: it has a non-empty path, is not an
array-structural operator over children, and is a leaf predicate or a
value-elemMatch. -/
def nodeCanUseIndexOnOwnField (t : MatchExpression) : Bool :=
  !(decide (t.path = "")) && !(arrayUsesIndexOnChildren t)
    && (isLeafKind t.mt || t.mt = .ELEM_MATCH_VALUE)

/-- Modelled from the spec: `MatchExpression::isLogical` — the logical
connectives AND, OR, NOR, NOT. -/
def isLogicalKind (t : MatchExpression) : Bool :=
  t.mt = .AND ∨ t.mt = .OR ∨ t.mt = .NOR ∨ t.mt = .NOT

/-- Modelled from the spec: `Indexability::isBoundsGenerating` — a node that
generates index bounds on its own field: an own-field predicate or a NOT
over one. -/
def isBoundsGenerating (t : MatchExpression) : Bool :=
  nodeCanUseIndexOnOwnField t
    || (t.mt = .NOT && nodeCanUseIndexOnOwnField t.child0)

/-- `fieldWithDefault`: read a numeric option from the index's `infoObj`,
with a default when absent or non-numeric. -/
def fieldWithDefault (infoObj : List (String × BSONValue)) (name : String)
    (deflt : Rat) : Rat :=
  match infoObj.lookup name with
  | some (.num q) => q
  | _ => deflt

/-- `GeoHashConverter::Parameters` as filled in by `twoDWontWrap`. -/
structure GeoHashParams where
  bits : Nat
  max : Rat
  min : Rat
  scaling : Rat

/-- Modelled from the spec: the external geometry/geohash module, a black box
supplying radian-to-degree conversion, the converter's spherical error
margin, and the x-scan-distance computation. -/
structure GeoMath where
  rad2deg : Rat → Rat
  getErrorSphere : GeoHashParams → Rat
  computeXScanDistance : Rat → Rat → Rat

/-- `twoDWontWrap`: 2d indices don't handle wrapping, so a centerSphere circle
is usable only when its scan box, expanded by the geohash error margin for
this index's bits/min/max parameters, stays strictly inside
(-180,180)×(-90,90). -/
def twoDWontWrap (gm : GeoMath) (circle : Circle) (index : IndexEntry) : Bool :=
  let bits : Nat := (fieldWithDefault index.infoObj "bits" 26).floor.toNat
  let mx : Rat := fieldWithDefault index.infoObj "max" 180
  let mn : Rat := fieldWithDefault index.infoObj "min" (-180)
  let numBuckets : Rat := 1024 * 1024 * 1024 * 4
  let params : GeoHashParams := ⟨bits, mx, mn, numBuckets / (mx - mn)⟩
  let yscandist : Rat := gm.rad2deg circle.radius + gm.getErrorSphere params
  let xscandist : Rat := gm.computeXScanDistance circle.y yscandist
  decide (circle.x + xscandist < 180 ∧ circle.x - xscandist > -180 ∧
          circle.y + yscandist < 90 ∧ circle.y - yscandist > -90)

mutual
/-- `QueryPlannerIXSelect::getFields`: collect the field paths constrained by
the tree into `out`, stopping at NOR nodes and prefixing array-operator
children with the operator's path and a dot (unless that path is empty). -/
def getFields (node : MatchExpression) (pfx : String) (out : List String) :
    List String :=
  match node with
  | t@(.node m p _ _ cs) =>
    if m = .NOR then out
    else if nodeCanUseIndexOnOwnField t then out.insert (pfx ++ p)
    else if arrayUsesIndexOnChildren t then
      getFieldsL cs (if p = "" then pfx else pfx ++ p ++ ".") out
    else if isLogicalKind t then getFieldsL cs pfx out
    else out
/-- Helper for `getFields` over a child list, visiting children in order. -/
def getFieldsL (cs : MEList) (pfx : String) (out : List String) : List String :=
  match cs with
  | .nil => out
  | .cons c tl => getFieldsL tl pfx (getFields c pfx out)
end

/-- `QueryPlannerIXSelect::findRelevantIndices`: keep the indexes whose first
key-pattern field is among the constrained paths.  An empty key pattern
fails the `verify(it.more())` assertion, aborting the attempt. -/
def findRelevantIndices (fields : List String) :
    List IndexEntry → Option (List IndexEntry)
  | [] => some []
  | ie :: rest =>
    match ie.keyPattern with
    | [] => none
    | e :: _ =>
      match findRelevantIndices fields rest with
      | none => none
      | some out => some (if fields.contains e.1 then ie :: out else out)

/-- The suffix scan at the end of `compatible`'s ordinary-field branch: walk
the key pattern; hitting a string-typed element first means the queried
field sits in the suffix (usable), hitting an element named like the leaf's
path first means it is a prefix field (not usable); running off the end
violates the text-index invariant (`invariant(0)`). -/
def textSuffixScan (kp : List (String × BSONValue)) (path : String) :
    Option Bool :=
  match kp with
  | [] => none
  | e :: rest =>
    if e.2.isStr then some true
    else if path = e.1 then some false
    else textSuffixScan rest path

/-- The ordinary-field decision table of `compatible` (the branch taken when
`indexedFieldType` is empty). -/
def compatibleOrdinary (index : IndexEntry) (node : MatchExpression) :
    Option Bool :=
  if node.mt = .EQ ∧ index.sparse ∧ node.eqDataIsNull then some false
  else if node.mt = .GEO ∨ node.mt = .GEO_NEAR then some false
  else if node.mt = .NOT ∧ (index.sparse ∨ index.multikey) then some false
  else if node.mt = .NOT ∧
      (node.child0.mt = .REGEX ∨ node.child0.mt = .MOD) then some false
  else if index.type = .INDEX_TEXT then
    if node.mt = .EQ then some true
    else textSuffixScan index.keyPattern node.path
  else some true

/-- The special-family decision table of `compatible` (the branch chain taken
when `indexedFieldType` names a special family `s`). -/
def compatibleSpecial (gm : GeoMath) (s : String) (index : IndexEntry)
    (node : MatchExpression) : Option Bool :=
  if s = IndexNames.HASHED then
    some (decide (node.mt = .MATCH_IN ∨ node.mt = .EQ))
  else if s = IndexNames.GEO_2DSPHERE then
    if node.mt = .GEO then some node.geoHasS2Region
    else if node.mt = .GEO_NEAR then
      some (decide (node.nearCrs = .SPHERE) || node.isNearSphere)
    else some false
  else if s = IndexNames.GEO_2D then
    if node.mt = .GEO_NEAR then some (decide (node.nearCrs = .FLAT))
    else if node.mt = .GEO then
      if node.geoPred = .WITHIN then
        if node.geoHasFlatRegion then some true
        else
          match node.geoCap with
          | none => some false
          | some cap =>
            if cap.crs = .SPHERE then some (twoDWontWrap gm cap.circle index)
            else none
      else some false
    else some false
  else if s = IndexNames.TEXT then
    some (decide (node.mt = .TEXT))
  else if s = IndexNames.GEO_HAYSTACK then some false
  else none

/-- `QueryPlannerIXSelect::compatible`: the compatibility oracle deciding
whether `node` can use the key-pattern element `elt` of `index`.
`indexedFieldType` is the special-family string, empty unless the element
value is a string and the index is not classified plain B-tree.  `none`
models a fatal assertion (unknown index family, or the text suffix scan
running off the end of the key pattern). -/
def indexedFieldTypeOf (elt : String × BSONValue) (index : IndexEntry) :
    String :=
  if !elt.2.isStr ∨ index.type = .INDEX_BTREE then "" else elt.2.strVal

/-- `QueryPlannerIXSelect::compatible`, dispatching on `indexedFieldType`. -/
def compatible (gm : GeoMath) (elt : String × BSONValue) (index : IndexEntry)
    (node : MatchExpression) : Option Bool :=
  if indexedFieldTypeOf elt index = "" then compatibleOrdinary index node
  else compatibleSpecial gm (indexedFieldTypeOf elt index) index node

/-- When the key element is an ordinary one (non-string value, or a B-tree
classified index), the oracle runs the ordinary decision table. -/
theorem compatible_ord (gm : GeoMath) (elt : String × BSONValue)
    (ie : IndexEntry) (node : MatchExpression)
    (hord : elt.2.isStr = false ∨ ie.type = .INDEX_BTREE) :
    compatible gm elt ie node = compatibleOrdinary ie node := by
  unfold compatible indexedFieldTypeOf
  rcases hord with h | h <;> simp [h]

/-- When the key element carries a non-empty special-family string and the
index is not classified B-tree, the oracle runs the special-family chain. -/
theorem compatible_spec (gm : GeoMath) (nm s : String)
    (ie : IndexEntry) (node : MatchExpression)
    (hty : ie.type ≠ .INDEX_BTREE) (hs : s ≠ "") :
    compatible gm (nm, .str s) ie node = compatibleSpecial gm s ie node := by
  unfold compatible indexedFieldTypeOf
  simp [BSONValue.isStr, BSONValue.strVal, hty, hs]

/-- The first-key-element test of `rateIndices` over a key pattern. -/
def rateFirstElt (gm : GeoMath) (fullPath : String) (node : MatchExpression)
    (ie : IndexEntry) : List (String × BSONValue) → Option Bool
  | [] => some false
  | e :: _ => if e.1 = fullPath then compatible gm e ie node else some false

/-- The first-key-element test of `rateIndices`: does this index contribute to
the tag's `first` list?  The oracle is consulted only when the first key
element's field name equals the node's full path. -/
def rateOneFirst (gm : GeoMath) (fullPath : String) (node : MatchExpression)
    (ie : IndexEntry) : Option Bool :=
  rateFirstElt gm fullPath node ie ie.keyPattern

/-- The `while (it.more())` loop of `rateIndices`: one `notFirst` entry is
pushed for every later key element whose field name equals the full path
and which the oracle accepts. -/
def rateScanRest (gm : GeoMath) (fullPath : String) (node : MatchExpression)
    (ie : IndexEntry) (i : Nat) :
    List (String × BSONValue) → Option (List Nat)
  | [] => some []
  | e :: rest =>
    if e.1 = fullPath then
      match compatible gm e ie node with
      | none => none
      | some b =>
        match rateScanRest gm fullPath node ie i rest with
        | none => none
        | some tl => some (if b then i :: tl else tl)
    else rateScanRest gm fullPath node ie i rest

/-- The per-index loop of `rateIndices`, producing the `first` and `notFirst`
lists of the fresh tag (indexes examined in catalog order, position `i`
onwards). -/
def rateAll (gm : GeoMath) (fullPath : String) (node : MatchExpression) :
    Nat → List IndexEntry → Option (List Nat × List Nat)
  | _, [] => some ([], [])
  | i, ie :: rest =>
    match rateOneFirst gm fullPath node ie with
    | none => none
    | some b =>
      match rateScanRest gm fullPath node ie i (ie.keyPattern.drop 1) with
      | none => none
      | some nf =>
        match rateAll gm fullPath node (i + 1) rest with
        | none => none
        | some (fs, nfs) => some ((if b then i :: fs else fs), nf ++ nfs)

mutual
/-- `QueryPlannerIXSelect::rateIndices`: walk the tree (stopping at NOR),
attach a fresh `RelevantTag` to every bounds-generating node, and for a NOT
give its child a structural copy of the tag.  `none` models the
`verify(NULL == node->getTag())` assertion or an oracle abort. -/
def rateIndices (gm : GeoMath) (node : MatchExpression) (pfx : String)
    (indices : List IndexEntry) : Option MatchExpression :=
  match node with
  | t@(.node m p _ tg cs) =>
    if m = .NOR then some t
    else if isBoundsGenerating t then
      match tg with
      | some _ => none
      | none =>
        if m = .NOT then
          match rateAll gm (pfx ++ t.child0.path) t 0 indices with
          | none => none
          | some fnf =>
            some ((t.withTag (some ⟨pfx ++ t.child0.path, fnf.1, fnf.2⟩)).withChild0Tag
              (some ⟨pfx ++ t.child0.path, fnf.1, fnf.2⟩))
        else
          match rateAll gm (pfx ++ p) t 0 indices with
          | none => none
          | some fnf => some (t.withTag (some ⟨pfx ++ p, fnf.1, fnf.2⟩))
    else if arrayUsesIndexOnChildren t then
      match rateIndicesL gm cs (if p = "" then pfx else pfx ++ p ++ ".") indices with
      | none => none
      | some cs' => some (t.withChildren cs')
    else if isLogicalKind t then
      match rateIndicesL gm cs pfx indices with
      | none => none
      | some cs' => some (t.withChildren cs')
    else some t
/-- Helper for `rateIndices` over a child list, in order. -/
def rateIndicesL (gm : GeoMath) (cs : MEList) (pfx : String)
    (indices : List IndexEntry) : Option MEList :=
  match cs with
  | .nil => some .nil
  | .cons c tl =>
    match rateIndices gm c pfx indices with
    | none => none
    | some c' =>
      match rateIndicesL gm tl pfx indices with
      | none => none
      | some tl' => some (.cons c' tl')
end

/-- `removeIndexRelevantTag`: remove the first occurrence of `idx` from the
node's tag lists (a no-op on a list not containing it).  The node must be
tagged (`verify(tag)`), else the attempt aborts. -/
def removeIndexRelevantTag (node : MatchExpression) (idx : Nat) :
    Option MatchExpression :=
  match node.getTag with
  | none => none
  | some tg =>
    some (node.withTag (some ⟨tg.path, tg.first.erase idx, tg.notFirst.erase idx⟩))

/-- Map a stripping function over a child list, in order. -/
def stripListWith (f : MatchExpression → Option MatchExpression) :
    MEList → Option MEList
  | .nil => some .nil
  | .cons c cs =>
    match f c with
    | none => none
    | some c' =>
      match stripListWith f cs with
      | none => none
      | some cs' => some (.cons c' cs')

/-- The child loop of the AND case of `stripInvalidAssignmentsToTextIndex`:
visit children in order, recursing (via `f`) into untagged children and
tagged children whose tag does not mention `idx`; a tagged child mentioning
`idx` either sets `hasText` (a TEXT child) or erases its path from the
working prefix set.  Returns the updated children, the `hasText` flag and
the remaining prefix paths. -/
def stripPassOne (f : MatchExpression → Option MatchExpression) (idx : Nat) :
    MEList → Bool → List String → Option (MEList × Bool × List String)
  | .nil, ht, rem => some (.nil, ht, rem)
  | .cons c cs, ht, rem =>
    match c.getTag with
    | none =>
      match f c with
      | none => none
      | some c' =>
        match stripPassOne f idx cs ht rem with
        | none => none
        | some r => some (.cons c' r.1, r.2)
    | some tg =>
      if tg.first.contains idx || tg.notFirst.contains idx then
        if c.mt = .TEXT then
          match stripPassOne f idx cs true rem with
          | none => none
          | some r => some (.cons c r.1, r.2)
        else
          match stripPassOne f idx cs ht (rem.erase c.path) with
          | none => none
          | some r => some (.cons c r.1, r.2)
      else
        match f c with
        | none => none
        | some c' =>
          match stripPassOne f idx cs ht rem with
          | none => none
          | some r => some (.cons c' r.1, r.2)

/-- `stripInvalidAssignmentsToTextIndex`, fuel-indexed (the AND case strips
already-visited children a second time, so the recursion is not
structural; the fuel is an upper bound on the recursion depth and is
always sufficient when the wrapper supplies `sizeOf` the tree).  Own-field
leaves lose the assignment; NOT and NOR stop the walk; non-AND internal
nodes recurse; an AND keeps its children's assignments only if a direct
TEXT child is assigned and its tagged children erased every prefix path. -/
def stripF : Nat → Nat → List String → MatchExpression → Option MatchExpression
  | 0, _, _, _ => none
  | n + 1, idx, pp, node =>
    if nodeCanUseIndexOnOwnField node then removeIndexRelevantTag node idx
    else if node.mt = .NOT ∨ node.mt = .NOR then some node
    else if node.mt = .AND then
      match stripPassOne (stripF n idx pp) idx node.children false pp with
      | none => none
      | some r =>
        if !r.2.1 || !r.2.2.isEmpty then
          match stripListWith (stripF n idx pp) r.1 with
          | none => none
          | some cs2 => some (node.withChildren cs2)
        else some (node.withChildren r.1)
    else
      match stripListWith (stripF n idx pp) node.children with
      | none => none
      | some cs' => some (node.withChildren cs')

mutual
/-- Number of nodes of a tree (used as recursion fuel for the enforcer). -/
def msize : MatchExpression → Nat
  | .node _ _ _ _ cs => 1 + msizeL cs
/-- Number of nodes of a child list. -/
def msizeL : MEList → Nat
  | .nil => 0
  | .cons c cs => msize c + msizeL cs
end

/-- Wrapper supplying adequate fuel for `stripF` (the recursion depth is
bounded by the tree height, hence by the node count). -/
def stripInvalidAssignmentsToTextIndex (node : MatchExpression) (idx : Nat)
    (pp : List String) : Option MatchExpression :=
  stripF (msize node + 1) idx pp node

/-- The prefix-path gathering loop of
`stripInvalidAssignmentsToTextIndexes`: collect field names until the first
string-typed key element; the `verify(it.more())` assertion makes a key
pattern with no string element fatal. -/
def textPrefixScan : List (String × BSONValue) → Option (List String)
  | [] => none
  | e :: rest =>
    if e.2.isStr then some []
    else
      match textPrefixScan rest with
      | none => none
      | some pp => some (pp.insert e.1)

/-- The per-index loop of `stripInvalidAssignmentsToTextIndexes`, starting at
catalog position `i`. -/
def stripAllFrom (tree : MatchExpression) (i : Nat) :
    List IndexEntry → Option MatchExpression
  | [] => some tree
  | ie :: rest =>
    if ie.type = .INDEX_TEXT then
      match textPrefixScan ie.keyPattern with
      | none => none
      | some pp =>
        if pp.isEmpty then stripAllFrom tree (i + 1) rest
        else
          match stripInvalidAssignmentsToTextIndex tree i pp with
          | none => none
          | some tree2 => stripAllFrom tree2 (i + 1) rest
    else stripAllFrom tree (i + 1) rest

/-- `QueryPlannerIXSelect::stripInvalidAssignmentsToTextIndexes`: for every
TEXT index with a non-empty prefix, strip invalid assignments across the
whole tree. -/
def stripInvalidAssignmentsToTextIndexes (node : MatchExpression)
    (indices : List IndexEntry) : Option MatchExpression :=
  stripAllFrom node 0 indices

/-- Does the tag mention index `idx` in either list? -/
def RelevantTag.refsIdx (rt : RelevantTag) (idx : Nat) : Bool :=
  rt.first.contains idx || rt.notFirst.contains idx

/-- Does the node carry a tag assigning it to index `idx`? -/
def refsB (idx : Nat) (t : MatchExpression) : Bool :=
  match t.getTag with
  | some rt => rt.refsIdx idx
  | none => false

/-- Conjunction of a Boolean predicate over a child list. -/
def MEAllB (f : MatchExpression → Bool) : MEList → Bool
  | .nil => true
  | .cons c cs => f c && MEAllB f cs

/-- Pointwise lifting of a binary relation to two child lists of equal length. -/
def MEAll2 (R : MatchExpression → MatchExpression → Prop) : MEList → MEList → Prop
  | .nil, .nil => True
  | .cons c cs, .cons c' cs' => R c c' ∧ MEAll2 R cs cs'
  | _, _ => False

mutual
/-- No node of the subtree carries a tag. -/
def allUntaggedB : MatchExpression → Bool
  | .node _ _ _ tg cs => tg.isNone && allUntaggedLB cs
/-- `allUntaggedB` over a child list. -/
def allUntaggedLB : MEList → Bool
  | .nil => true
  | .cons c cs => allUntaggedB c && allUntaggedLB cs
end

mutual
/-- Some node of the subtree carries a tag assigning it to `idx`. -/
def anyRefB (idx : Nat) : MatchExpression → Bool
  | t@(.node _ _ _ _ cs) => refsB idx t || anyRefLB idx cs
/-- `anyRefB` over a child list. -/
def anyRefLB (idx : Nat) : MEList → Bool
  | .nil => false
  | .cons c cs => anyRefB idx c || anyRefLB idx cs
end

mutual
/-- Well-formed tagging: tags appear only on nodes the tagging pass tags,
namely own-field predicates and NOT nodes (`rateIndices` produces this). -/
def wfTagsB : MatchExpression → Bool
  | t@(.node _ _ _ tg cs) =>
    (!tg.isSome || (nodeCanUseIndexOnOwnField t || decide (t.mt = .NOT)))
      && wfTagsLB cs
/-- `wfTagsB` over a child list. -/
def wfTagsLB : MEList → Bool
  | .nil => true
  | .cons c cs => wfTagsB c && wfTagsLB cs
end

/-- Each list of the tag mentions `idx` at most once. -/
def tagOnce (idx : Nat) : Option RelevantTag → Bool
  | some rt => decide (rt.first.count idx ≤ 1) && decide (rt.notFirst.count idx ≤ 1)
  | none => true

mutual
/-- Every tag in the subtree mentions `idx` at most once per list. -/
def onceTagB (idx : Nat) : MatchExpression → Bool
  | .node _ _ _ tg cs => tagOnce idx tg && onceTagLB idx cs
/-- `onceTagB` over a child list. -/
def onceTagLB (idx : Nat) : MEList → Bool
  | .nil => true
  | .cons c cs => onceTagB idx c && onceTagLB idx cs
end

mutual
/-- After enforcement for index `idx`: no assignment to `idx` survives at a
position the enforcer can reach before meeting an AND — own-field nodes
stop the walk (their tag is inspected), NOT/NOR and AND nodes shield
everything below them. -/
def noExposedB (idx : Nat) : MatchExpression → Bool
  | t@(.node _ _ _ _ cs) =>
    if nodeCanUseIndexOnOwnField t then !refsB idx t
    else if t.mt = .NOT ∨ t.mt = .NOR then true
    else if t.mt = .AND then true
    else noExposedLB idx cs
/-- `noExposedB` over a child list. -/
def noExposedLB (idx : Nat) : MEList → Bool
  | .nil => true
  | .cons c cs => noExposedB idx c && noExposedLB idx cs
end

/-- Does this direct child of an AND erase prefix path `s` for index `idx`
(tagged with an assignment to `idx`, not the text predicate, path `s`)? -/
def coversChildB (idx : Nat) (s : String) (c : MatchExpression) : Bool :=
  refsB idx c && decide (c.mt ≠ .TEXT) && decide (c.path = s)

/-- Some direct child erases prefix path `s`. -/
def coversLB (idx : Nat) (s : String) : MEList → Bool
  | .nil => false
  | .cons c cs => coversChildB idx s c || coversLB idx s cs

/-- Some direct child is a TEXT predicate assigned to `idx`. -/
def hasTextChildB (idx : Nat) : MEList → Bool
  | .nil => false
  | .cons c cs => (refsB idx c && decide (c.mt = .TEXT)) || hasTextChildB idx cs

/-- The claim's per-AND condition: a direct TEXT child is assigned to the
index and every prefix path is erased by some direct tagged child. -/
def goodAndB (idx : Nat) (pp : List String) (cs : MEList) : Bool :=
  hasTextChildB idx cs && pp.all (fun s => coversLB idx s cs)

mutual
/-- After enforcement for index `idx` with prefix paths `pp`: every AND node
reachable before a NOT/NOR boundary either satisfies the prefix condition
(`goodAndB`) or has no exposed assignment among its children. -/
def andsGoodB (idx : Nat) (pp : List String) : MatchExpression → Bool
  | t@(.node _ _ _ _ cs) =>
    if nodeCanUseIndexOnOwnField t then true
    else if t.mt = .NOT ∨ t.mt = .NOR then true
    else if t.mt = .AND then
      (goodAndB idx pp cs || noExposedLB idx cs) && andsGoodLB idx pp cs
    else andsGoodLB idx pp cs
/-- `andsGoodB` over a child list. -/
def andsGoodLB (idx : Nat) (pp : List String) : MEList → Bool
  | .nil => true
  | .cons c cs => andsGoodB idx pp c && andsGoodLB idx pp cs
end

mutual
/-- Every NOR node's subtree is entirely untagged. -/
def norShieldedB : MatchExpression → Bool
  | t@(.node _ _ _ _ cs) =>
    (if t.mt = .NOR then allUntaggedLB cs else true) && norShieldedLB cs
/-- `norShieldedB` over a child list. -/
def norShieldedLB : MEList → Bool
  | .nil => true
  | .cons c cs => norShieldedB c && norShieldedLB cs
end

mutual
/-- The tagging discipline `rateIndices` establishes on an initially untagged
tree: NOR subtrees stay untagged; a bounds-generating node gets a tag (for
a NOT, its first child also gets one and nothing deeper); the interiors of
own-field nodes stay untagged; other connectives carry no tag and are
recursed. -/
def rateTagOKB : MatchExpression → Bool
  | t@(.node m _ _ tg cs) =>
    if m = .NOR then tg.isNone && allUntaggedLB cs
    else if isBoundsGenerating t then
      tg.isSome &&
        (if m = .NOT then
          (match cs with
           | .cons c tl => c.getTag.isSome && allUntaggedLB c.children && allUntaggedLB tl
           | .nil => true)
         else allUntaggedLB cs)
    else if arrayUsesIndexOnChildren t then tg.isNone && rateTagOKLB cs
    else if isLogicalKind t then tg.isNone && rateTagOKLB cs
    else tg.isNone && allUntaggedLB cs
/-- `rateTagOKB` over a child list. -/
def rateTagOKLB : MEList → Bool
  | .nil => true
  | .cons c cs => rateTagOKB c && rateTagOKLB cs
end

/-- Index `i` of the catalog is neither sparse nor multikey (vacuously true
out of range). -/
def idxNotSparseMultikey (indices : List IndexEntry) (i : Nat) : Bool :=
  match indices.get? i with
  | some ie => !ie.sparse && !ie.multikey
  | none => true

/-- Index `i` of the catalog is not sparse (vacuously true out of range). -/
def idxNotSparse (indices : List IndexEntry) (i : Nat) : Bool :=
  match indices.get? i with
  | some ie => !ie.sparse
  | none => true

mutual
/-- Every NOT node's tag lists only indexes that are neither sparse nor
multikey. -/
def notTagsSafeB (indices : List IndexEntry) : MatchExpression → Bool
  | .node m _ _ tg cs =>
    (if m = .NOT then
      (match tg with
       | some rt => rt.first.all (idxNotSparseMultikey indices)
           && rt.notFirst.all (idxNotSparseMultikey indices)
       | none => true)
     else true) && notTagsSafeLB indices cs
/-- `notTagsSafeB` over a child list. -/
def notTagsSafeLB (indices : List IndexEntry) : MEList → Bool
  | .nil => true
  | .cons c cs => notTagsSafeB indices c && notTagsSafeLB indices cs
end

mutual
/-- Every equality-on-null node's tag lists only non-sparse indexes. -/
def eqNullNoSparseB (indices : List IndexEntry) : MatchExpression → Bool
  | t@(.node m _ _ tg cs) =>
    (if m = .EQ ∧ t.eqDataIsNull then
      (match tg with
       | some rt => rt.first.all (idxNotSparse indices)
           && rt.notFirst.all (idxNotSparse indices)
       | none => true)
     else true) && eqNullNoSparseLB indices cs
/-- `eqNullNoSparseB` over a child list. -/
def eqNullNoSparseLB (indices : List IndexEntry) : MEList → Bool
  | .nil => true
  | .cons c cs => eqNullNoSparseB indices c && eqNullNoSparseLB indices cs
end

/-- An index with no special key elements: classified B-tree, or every key
element's value is non-string. -/
def ordinaryIndexB (ie : IndexEntry) : Bool :=
  decide (ie.type = .INDEX_BTREE) || ie.keyPattern.all (fun e => !e.2.isStr)

/-- The claim's wording of the text suffix rule: scanning the key pattern in
declared order, a string-typed (sentinel) element occurs strictly before
the first element whose field name equals the leaf's path. -/
def sentinelBeforeB (kp : List (String × BSONValue)) (path : String) : Bool :=
  match kp with
  | [] => false
  | e :: rest =>
    if e.2.isStr then true
    else if path = e.1 then false
    else sentinelBeforeB rest path

/-- A tag whose two index lists each hold at most one entry. -/
def shortTag : Option RelevantTag → Bool
  | some rt => decide (rt.first.length ≤ 1) && decide (rt.notFirst.length ≤ 1)
  | none => true

mutual
/-- Every tag in the subtree has index lists of length at most one. -/
def shortTagsB : MatchExpression → Bool
  | .node _ _ _ tg cs => shortTag tg && shortTagsLB cs
/-- `shortTagsB` over a child list. -/
def shortTagsLB : MEList → Bool
  | .nil => true
  | .cons c cs => shortTagsB c && shortTagsLB cs
end

/-- A micro-model of the C++ tag heap: tags are objects behind handles,
handles are given out in allocation order, `tags h` reads the object the
handle `h` points to. -/
structure TagStore where
  next : Nat
  tags : Nat → Option RelevantTag

/-- `new RelevantTag(...)`: allocate a fresh object, returning its handle. -/
def TagStore.alloc (st : TagStore) (rt : RelevantTag) : Nat × TagStore :=
  (st.next, ⟨st.next + 1, fun h => if h = st.next then some rt else st.tags h⟩)

/-- In-place mutation of the object behind handle `h`. -/
def TagStore.setAt (st : TagStore) (h : Nat) (rt : RelevantTag) : TagStore :=
  ⟨st.next, fun k => if k = h then some rt else st.tags k⟩

/-- The NOT branch of `rateIndices` on the tag heap (`rt->clone()`,
`childRt->path = rt->path`, `child->setTag(childRt)`): allocate the NOT's
own tag, then allocate a structural copy of it for the NOT's child.
Returns the parent handle, the child handle and the final heap. -/
def rateTagNotStep (st : TagStore) (rt : RelevantTag) : Nat × Nat × TagStore :=
  let pr := st.alloc rt
  let cr := pr.2.alloc ⟨rt.path, rt.first, rt.notFirst⟩
  (pr.1, cr.1, cr.2)

/-- A concrete geometry oracle for concrete evaluations: radians pass
through, zero error margin, x-scan equals y-scan. -/
def gmW : GeoMath := ⟨fun q => q, fun _ => 0, fun _ d => d⟩

/-- `{a: 5}`-style equality leaf. -/
def leafEQaW : MatchExpression := .node .EQ "a" (.eqVal false) none .nil

/-- `{a: {$gt: 5}}`-style comparison leaf. -/
def leafGTaW : MatchExpression := .node .GT "a" .plain none .nil

/-- `{b: {$gt: 5}}`-style comparison leaf. -/
def leafGTbW : MatchExpression := .node .GT "b" .plain none .nil

/-- `{a: null}` equality-on-null leaf. -/
def leafEQnullW : MatchExpression := .node .EQ "a" (.eqVal true) none .nil

/-- Plain ascending index `{a: 1}`. -/
def idxAW : IndexEntry := ⟨[("a", .num 1)], false, false, .INDEX_BTREE, []⟩

/-- Sparse ascending index `{a: 1}`. -/
def idxASparseW : IndexEntry := ⟨[("a", .num 1)], false, true, .INDEX_BTREE, []⟩

/-- Sparse hashed index `{a: "hashed"}`. -/
def idxHashedSparseW : IndexEntry :=
  ⟨[("a", .str "hashed")], false, true, .INDEX_HASHED, []⟩

/-- Text index `{a: 1, _fts: "text"}`. -/
def idxTextW : IndexEntry :=
  ⟨[("a", .num 1), ("_fts", .str "text")], false, false, .INDEX_TEXT, []⟩

/-- Sparse text index `{a: 1, _fts: "text"}`. -/
def idxTextSparseW : IndexEntry :=
  ⟨[("a", .num 1), ("_fts", .str "text")], false, true, .INDEX_TEXT, []⟩

/-- Text index `{_fts: "text", a: 1}`: the queried field is a suffix field. -/
def idxTextSufAW : IndexEntry :=
  ⟨[("_fts", .str "text"), ("a", .num 1)], false, false, .INDEX_TEXT, []⟩

/-- A TEXT-classified index whose key pattern holds no string sentinel. -/
def idxTextNoSentinelW : IndexEntry := ⟨[("a", .num 1)], false, false, .INDEX_TEXT, []⟩

/-- Text index `{a: 1, _fts: "text", b: 1}`. -/
def idxTextSufW : IndexEntry :=
  ⟨[("a", .num 1), ("_fts", .str "text"), ("b", .num 1)], false, false, .INDEX_TEXT, []⟩

/-- A geo-within leaf on `a` with flat and S2 regions and no cap. -/
def geoLeafAW : MatchExpression :=
  .node .GEO "a" (.geo ⟨.WITHIN, true, true, none⟩) none .nil

/-- A 2d index `{loc: "2d"}`. -/
def idx2dW : IndexEntry := ⟨[("loc", .str "2d")], false, false, .INDEX_2D, []⟩

/-- A GEO_NEAR leaf on `loc` whose reference point is flat. -/
def geoNearFlatW : MatchExpression :=
  .node .GEO_NEAR "loc" (.near ⟨.FLAT, false⟩) none .nil

/-- `AND({a: 5}, {$text})` as tagged by the tagging pass against `idxTextW`. -/
def andEqTaggedW : MatchExpression := .node .AND "" .plain none
  (.cons (.node .EQ "a" (.eqVal false) (some ⟨"a", [0], []⟩) .nil)
   (.cons (.node .TEXT "_fts" .plain (some ⟨"_fts", [], [0]⟩) .nil) .nil))

/-- The tagged `AND({a: 5}, {$text})` nested under an outer AND. -/
def outerAndW : MatchExpression :=
  .node .AND "" .plain none (.cons andEqTaggedW .nil)

/-- `AND(NOT({b: 2}))` as tagged against `idxTextSufW` (`b` is a suffix
field, so the NOT and its child hold `notFirst = [0]`). -/
def andNotBW : MatchExpression := .node .AND "" .plain none
  (.cons (.node .NOT "" .plain (some ⟨"b", [], [0]⟩)
    (.cons (.node .EQ "b" (.eqVal false) (some ⟨"b", [], [0]⟩) .nil) .nil)) .nil)

/-- `NOT({a: 5})`, untagged. -/
def notAW : MatchExpression := .node .NOT "" .plain none (.cons leafEQaW .nil)

/-- `NOT({a: 5})` as tagged against the sparse `{a: 1}` (lists empty). -/
def ratedNotAW : MatchExpression := .node .NOT "" .plain (some ⟨"a", [], []⟩)
  (.cons (.node .EQ "a" (.eqVal false) (some ⟨"a", [], []⟩) .nil) .nil)

/-- `NOR({a: 5})`, untagged. -/
def norW : MatchExpression := .node .NOR "" .plain none (.cons leafEQaW .nil)

/-- `{a: null}` as tagged against the sparse `{a: 1}` (lists empty). -/
def ratedEQnullW : MatchExpression :=
  .node .EQ "a" (.eqVal true) (some ⟨"a", [], []⟩) .nil

/-- `{a: {$gt: 5}}` as tagged against the empty catalog (lists empty). -/
def ratedGTemptyW : MatchExpression := .node .GT "a" .plain (some ⟨"a", [], []⟩) .nil

/-- An equality leaf whose tag lists index `0` twice in `first`. -/
def dupTagLeafW : MatchExpression :=
  .node .EQ "a" (.eqVal false) (some ⟨"a", [0, 0], []⟩) .nil

/-- The empty tag heap. -/
def tagStore0 : TagStore := ⟨0, fun _ => none⟩

/-- Mutual structural induction over trees (tree conclusion). -/
theorem me_ind (P : MatchExpression → Prop) (Q : MEList → Prop)
    (hnode : ∀ m p pl tg cs, Q cs → P (.node m p pl tg cs))
    (hnil : Q .nil)
    (hcons : ∀ c tl, P c → Q tl → Q (.cons c tl)) :
    ∀ t, P t :=
  fun t => @MatchExpression.rec P Q hnode hnil hcons t

/-- Mutual structural induction over trees (child-list conclusion). -/
theorem mel_ind (P : MatchExpression → Prop) (Q : MEList → Prop)
    (hnode : ∀ m p pl tg cs, Q cs → P (.node m p pl tg cs))
    (hnil : Q .nil)
    (hcons : ∀ c tl, P c → Q tl → Q (.cons c tl)) :
    ∀ cs, Q cs :=
  fun cs => @MEList.rec P Q hnode hnil hcons cs

theorem compatibleOrdinary_not_sparse_multikey (ie : IndexEntry)
    (node : MatchExpression) (hmt : node.mt = .NOT)
    (h : compatibleOrdinary ie node = some true) :
    ie.sparse = false ∧ ie.multikey = false := by
  unfold compatibleOrdinary at h
  split_ifs at h <;> simp_all

theorem compatibleSpecial_not_never (gm : GeoMath) (s : String)
    (ie : IndexEntry) (node : MatchExpression) (hmt : node.mt = .NOT) :
    compatibleSpecial gm s ie node ≠ some true := by
  unfold compatibleSpecial
  split_ifs <;> simp_all

/-- The oracle accepts a NOT only against a non-sparse non-multikey index:
special-family elements never accept a NOT, and the ordinary table filters
sparse and multikey out before anything can accept. -/
theorem compatible_not_sparse_multikey (gm : GeoMath) (elt : String × BSONValue)
    (ie : IndexEntry) (node : MatchExpression) (hmt : node.mt = .NOT)
    (h : compatible gm elt ie node = some true) :
    ie.sparse = false ∧ ie.multikey = false := by
  unfold compatible at h
  split_ifs at h
  · exact compatibleOrdinary_not_sparse_multikey ie node hmt h
  · exact absurd h (compatibleSpecial_not_never gm _ ie node hmt)

theorem compatibleOrdinary_not_regex_mod (ie : IndexEntry)
    (node : MatchExpression) (hmt : node.mt = .NOT)
    (hchild : node.child0.mt = .REGEX ∨ node.child0.mt = .MOD) :
    compatibleOrdinary ie node = some false := by
  unfold compatibleOrdinary
  split_ifs <;> simp_all

theorem compatible_not_regex_mod (gm : GeoMath) (elt : String × BSONValue)
    (ie : IndexEntry) (node : MatchExpression)
    (hord : elt.2.isStr = false ∨ ie.type = .INDEX_BTREE)
    (hmt : node.mt = .NOT)
    (hchild : node.child0.mt = .REGEX ∨ node.child0.mt = .MOD) :
    compatible gm elt ie node = some false := by
  rw [compatible_ord gm elt ie node hord]
  exact compatibleOrdinary_not_regex_mod ie node hmt hchild

theorem compatibleOrdinary_eq_null_sparse (ie : IndexEntry)
    (node : MatchExpression)
    (hmt : node.mt = .EQ) (hnull : node.eqDataIsNull = true)
    (hsp : ie.sparse = true) :
    compatibleOrdinary ie node = some false := by
  unfold compatibleOrdinary
  split_ifs <;> simp_all

theorem compatible_eq_null_sparse (gm : GeoMath) (elt : String × BSONValue)
    (ie : IndexEntry) (node : MatchExpression)
    (hord : elt.2.isStr = false ∨ ie.type = .INDEX_BTREE)
    (hmt : node.mt = .EQ) (hnull : node.eqDataIsNull = true)
    (hsp : ie.sparse = true) :
    compatible gm elt ie node = some false := by
  rw [compatible_ord gm elt ie node hord]
  exact compatibleOrdinary_eq_null_sparse ie node hmt hnull hsp

theorem compatible_eq_null_true_not_sparse (gm : GeoMath)
    (elt : String × BSONValue) (ie : IndexEntry) (node : MatchExpression)
    (hord : elt.2.isStr = false ∨ ie.type = .INDEX_BTREE)
    (hmt : node.mt = .EQ) (hnull : node.eqDataIsNull = true)
    (h : compatible gm elt ie node = some true) :
    ie.sparse = false := by
  cases hsp : ie.sparse
  · rfl
  · rw [compatible_eq_null_sparse gm elt ie node hord hmt hnull hsp] at h
    simp at h

theorem compatible_unknown_family (gm : GeoMath) (nm s : String)
    (ie : IndexEntry) (node : MatchExpression)
    (hty : ie.type ≠ .INDEX_BTREE)
    (hs : s ≠ IndexNames.HASHED ∧ s ≠ IndexNames.GEO_2DSPHERE ∧
      s ≠ IndexNames.GEO_2D ∧ s ≠ IndexNames.TEXT ∧ s ≠ IndexNames.GEO_HAYSTACK ∧
      s ≠ "") :
    compatible gm (nm, .str s) ie node = none := by
  rw [compatible_spec gm nm s ie node hty hs.2.2.2.2.2]
  unfold compatibleSpecial
  split_ifs <;> simp_all

theorem textSuffixScan_eq_sentinel (path : String) :
    ∀ kp : List (String × BSONValue),
      (textSuffixScan kp path = some true ↔ sentinelBeforeB kp path = true) := by
  intro kp
  induction kp with
  | nil => simp [textSuffixScan, sentinelBeforeB]
  | cons e rest ih =>
    simp only [textSuffixScan, sentinelBeforeB]
    split_ifs <;> simp_all

theorem textSuffixScan_none_of_all (path : String) :
    ∀ kp : List (String × BSONValue),
      kp.all (fun e => !e.2.isStr && !(decide (path = e.1))) = true →
      textSuffixScan kp path = none := by
  intro kp
  induction kp with
  | nil => intro; rfl
  | cons e rest ih =>
    intro h
    simp only [List.all_cons, Bool.and_eq_true, Bool.not_eq_true'] at h
    obtain ⟨⟨h1, h2⟩, h3⟩ := h
    rw [textSuffixScan, if_neg (by simp [h1]), if_neg (by simpa using h2)]
    exact ih (by simpa using h3)

theorem compatibleOrdinary_eq_ok (ie : IndexEntry) (node : MatchExpression)
    (hmt : node.mt = .EQ)
    (hns : node.eqDataIsNull = false ∨ ie.sparse = false) :
    compatibleOrdinary ie node = some true := by
  unfold compatibleOrdinary
  split_ifs <;> simp_all

theorem compatible_text_eq_ok (gm : GeoMath) (elt : String × BSONValue)
    (ie : IndexEntry) (node : MatchExpression)
    (hord : elt.2.isStr = false ∨ ie.type = .INDEX_BTREE)
    (hmt : node.mt = .EQ)
    (hns : node.eqDataIsNull = false ∨ ie.sparse = false) :
    compatible gm elt ie node = some true := by
  rw [compatible_ord gm elt ie node hord]
  exact compatibleOrdinary_eq_ok ie node hmt hns

theorem compatible_text_geo_no (gm : GeoMath) (elt : String × BSONValue)
    (ie : IndexEntry) (node : MatchExpression)
    (hord : elt.2.isStr = false ∨ ie.type = .INDEX_BTREE)
    (hmt : node.mt = .GEO ∨ node.mt = .GEO_NEAR) :
    compatible gm elt ie node = some false := by
  rw [compatible_ord gm elt ie node hord]
  unfold compatibleOrdinary
  split_ifs <;> simp_all

theorem compatibleOrdinary_text_scan (ie : IndexEntry) (node : MatchExpression)
    (htype : ie.type = .INDEX_TEXT)
    (hne : ¬node.mt = .EQ) (hg1 : ¬node.mt = .GEO) (hg2 : ¬node.mt = .GEO_NEAR)
    (hnot : node.mt = .NOT →
      ie.sparse = false ∧ ie.multikey = false ∧
      ¬(node.child0.mt = .REGEX ∨ node.child0.mt = .MOD)) :
    compatibleOrdinary ie node = textSuffixScan ie.keyPattern node.path := by
  unfold compatibleOrdinary
  split_ifs <;> simp_all

theorem compatible_text_scan (gm : GeoMath) (elt : String × BSONValue)
    (ie : IndexEntry) (node : MatchExpression)
    (hord : elt.2.isStr = false ∨ ie.type = .INDEX_BTREE)
    (htype : ie.type = .INDEX_TEXT)
    (hne : ¬node.mt = .EQ) (hg1 : ¬node.mt = .GEO) (hg2 : ¬node.mt = .GEO_NEAR)
    (hnot : node.mt = .NOT →
      ie.sparse = false ∧ ie.multikey = false ∧
      ¬(node.child0.mt = .REGEX ∨ node.child0.mt = .MOD)) :
    compatible gm elt ie node = textSuffixScan ie.keyPattern node.path := by
  rw [compatible_ord gm elt ie node hord]
  exact compatibleOrdinary_text_scan ie node htype hne hg1 hg2 hnot

theorem compatible_text_scan_abort (gm : GeoMath) (elt : String × BSONValue)
    (ie : IndexEntry) (node : MatchExpression)
    (hord : elt.2.isStr = false ∨ ie.type = .INDEX_BTREE)
    (htype : ie.type = .INDEX_TEXT)
    (hne : ¬node.mt = .EQ) (hg1 : ¬node.mt = .GEO) (hg2 : ¬node.mt = .GEO_NEAR)
    (hn : ¬node.mt = .NOT)
    (hkp : ie.keyPattern.all
      (fun e => !e.2.isStr && !(decide (node.path = e.1))) = true) :
    compatible gm elt ie node = none := by
  rw [compatible_text_scan gm elt ie node hord htype hne hg1 hg2
    (fun h => absurd h hn)]
  exact textSuffixScan_none_of_all node.path ie.keyPattern hkp

theorem isBoundsGenerating_ne_nor (t : MatchExpression)
    (h : isBoundsGenerating t = true) : t.mt ≠ .NOR := by
  intro hm
  simp [isBoundsGenerating, nodeCanUseIndexOnOwnField, isLeafKind,
    arrayUsesIndexOnChildren, hm] at h

theorem rateIndices_tagged_abort (gm : GeoMath) (t : MatchExpression)
    (pfx : String) (indices : List IndexEntry)
    (hbg : isBoundsGenerating t = true) (rt : RelevantTag)
    (htg : t.getTag = some rt) :
    rateIndices gm t pfx indices = none := by
  match t with
  | .node m p pl tg cs =>
    have hm : m ≠ .NOR := isBoundsGenerating_ne_nor _ hbg
    simp only [MatchExpression.getTag] at htg
    subst htg
    unfold rateIndices
    simp [hm, hbg]

theorem rateScanRest_mem (gm : GeoMath) (fp : String) (node : MatchExpression)
    (ie : IndexEntry) (i : Nat) :
    ∀ kp nf, rateScanRest gm fp node ie i kp = some nf →
      ∀ k ∈ nf, k = i ∧ ∃ e ∈ kp, e.1 = fp ∧ compatible gm e ie node = some true := by
  intro kp
  induction kp with
  | nil =>
    intro nf h k hk
    simp only [rateScanRest] at h
    cases h
    simp at hk
  | cons e rest ih =>
    intro nf h k hk
    simp only [rateScanRest] at h
    split_ifs at h with he
    · cases hc : compatible gm e ie node with
      | none => rw [hc] at h; cases h
      | some b =>
        rw [hc] at h
        cases hr : rateScanRest gm fp node ie i rest with
        | none => rw [hr] at h; cases h
        | some tl =>
          rw [hr] at h
          cases h
          cases b with
          | true =>
            rw [if_pos rfl] at hk
            rcases List.mem_cons.mp hk with rfl | hk2
            · exact ⟨rfl, e, by simp, he, hc⟩
            · obtain ⟨hk1, e', he', hfp, hcomp⟩ := ih tl hr k hk2
              exact ⟨hk1, e', by simp [he'], hfp, hcomp⟩
          | false =>
            rw [if_neg (by simp)] at hk
            obtain ⟨hk1, e', he', hfp, hcomp⟩ := ih tl hr k hk
            exact ⟨hk1, e', by simp [he'], hfp, hcomp⟩
    · obtain ⟨hk1, e', he', hfp, hcomp⟩ := ih nf h k hk
      exact ⟨hk1, e', by simp [he'], hfp, hcomp⟩

theorem rateOneFirst_mem (gm : GeoMath) (fp : String) (node : MatchExpression)
    (ie : IndexEntry) (h : rateOneFirst gm fp node ie = some true) :
    ∃ e ∈ ie.keyPattern, e.1 = fp ∧ compatible gm e ie node = some true := by
  unfold rateOneFirst at h
  cases hkp : ie.keyPattern with
  | nil => rw [hkp] at h; simp [rateFirstElt] at h
  | cons e rest =>
    rw [hkp] at h
    simp only [rateFirstElt] at h
    split_ifs at h with he
    · exact ⟨e, by simp [hkp], he, h⟩
    · simp at h

/-- Every index id recorded by the per-index loop of `rateIndices` (in either
list) corresponds to a catalog entry with a key-pattern element whose field
name is the full path and which the oracle accepted. -/
theorem rateAll_mem (gm : GeoMath) (fp : String) (node : MatchExpression) :
    ∀ idxs i fs nfs, rateAll gm fp node i idxs = some (fs, nfs) →
      ∀ k, k ∈ fs ∨ k ∈ nfs →
        ∃ ie, i ≤ k ∧ idxs.get? (k - i) = some ie ∧
          ∃ e ∈ ie.keyPattern, e.1 = fp ∧ compatible gm e ie node = some true := by
  intro idxs
  induction idxs with
  | nil =>
    intro i fs nfs h k hk
    simp only [rateAll] at h
    cases h
    simp at hk
  | cons ie rest ih =>
    intro i fs nfs h k hk
    simp only [rateAll] at h
    cases hb : rateOneFirst gm fp node ie with
    | none => rw [hb] at h; cases h
    | some b =>
      rw [hb] at h
      cases hnf : rateScanRest gm fp node ie i (ie.keyPattern.drop 1) with
      | none => rw [hnf] at h; cases h
      | some nf =>
        rw [hnf] at h
        cases hra : rateAll gm fp node (i + 1) rest with
        | none => rw [hra] at h; cases h
        | some fnf =>
          obtain ⟨fs', nfs'⟩ := fnf
          rw [hra] at h
          cases h
          rcases hk with hk | hk
          · cases b with
            | true =>
              rw [if_pos rfl] at hk
              rcases List.mem_cons.mp hk with rfl | hk2
              · obtain ⟨e, he, hfp, hc⟩ := rateOneFirst_mem gm fp node ie hb
                exact ⟨ie, le_refl _, by simp, e, he, hfp, hc⟩
              · obtain ⟨ie', hle, hget, hrest⟩ := ih (i + 1) fs' nfs' hra k (Or.inl hk2)
                refine ⟨ie', by omega, ?_, hrest⟩
                have hki : k - i = (k - (i + 1)) + 1 := by omega
                rw [hki]
                exact hget
            | false =>
              rw [if_neg (by simp)] at hk
              obtain ⟨ie', hle, hget, hrest⟩ := ih (i + 1) fs' nfs' hra k (Or.inl hk)
              refine ⟨ie', by omega, ?_, hrest⟩
              have hki : k - i = (k - (i + 1)) + 1 := by omega
              rw [hki]
              exact hget
          · rcases List.mem_append.mp hk with hk | hk
            · obtain ⟨hk1, e, he, hfp, hc⟩ :=
                rateScanRest_mem gm fp node ie i _ nf hnf k hk
              subst hk1
              exact ⟨ie, le_refl _, by simp, e, List.mem_of_mem_drop he, hfp, hc⟩
            · obtain ⟨ie', hle, hget, hrest⟩ := ih (i + 1) fs' nfs' hra k (Or.inr hk)
              refine ⟨ie', by omega, ?_, hrest⟩
              have hki : k - i = (k - (i + 1)) + 1 := by omega
              rw [hki]
              exact hget

@[simp] theorem mt_node (m p pl tg cs) :
    (MatchExpression.node m p pl tg cs).mt = m := rfl

@[simp] theorem path_node (m p pl tg cs) :
    (MatchExpression.node m p pl tg cs).path = p := rfl

@[simp] theorem payload_node (m p pl tg cs) :
    (MatchExpression.node m p pl tg cs).payload = pl := rfl

@[simp] theorem getTag_node (m p pl tg cs) :
    (MatchExpression.node m p pl tg cs).getTag = tg := rfl

@[simp] theorem children_node (m p pl tg cs) :
    (MatchExpression.node m p pl tg cs).children = cs := rfl

@[simp] theorem withTag_node (m p pl tg tg2 cs) :
    (MatchExpression.node m p pl tg cs).withTag tg2 =
      .node m p pl tg2 cs := rfl

@[simp] theorem withChildren_node (m p pl tg cs cs2) :
    (MatchExpression.node m p pl tg cs).withChildren cs2 =
      .node m p pl tg cs2 := rfl

theorem allUntagged_notTagsSafe (indices : List IndexEntry) :
    (∀ t, allUntaggedB t = true → notTagsSafeB indices t = true) ∧
    (∀ cs, allUntaggedLB cs = true → notTagsSafeLB indices cs = true) := by
  have h1 : ∀ m p pl tg cs,
      (allUntaggedLB cs = true → notTagsSafeLB indices cs = true) →
      (allUntaggedB (.node m p pl tg cs) = true →
        notTagsSafeB indices (.node m p pl tg cs) = true) := by
    intro m p pl tg cs ih h
    simp only [allUntaggedB, Bool.and_eq_true] at h
    obtain ⟨h1, h2⟩ := h
    simp only [notTagsSafeB, Bool.and_eq_true]
    refine ⟨?_, ih h2⟩
    cases tg with
    | none => split <;> rfl
    | some _ => simp [Option.isNone] at h1
  have h2 : allUntaggedLB .nil = true → notTagsSafeLB indices .nil = true :=
    fun _ => rfl
  have h3 : ∀ c tl,
      (allUntaggedB c = true → notTagsSafeB indices c = true) →
      (allUntaggedLB tl = true → notTagsSafeLB indices tl = true) →
      (allUntaggedLB (.cons c tl) = true →
        notTagsSafeLB indices (.cons c tl) = true) := by
    intro c tl ihc ihl h
    simp only [allUntaggedLB, Bool.and_eq_true] at h
    simp only [notTagsSafeLB, Bool.and_eq_true]
    exact ⟨ihc h.1, ihl h.2⟩
  exact ⟨me_ind _ _ h1 h2 h3, mel_ind _ _ h1 h2 h3⟩

theorem allUntagged_eqNullNoSparse (indices : List IndexEntry) :
    (∀ t, allUntaggedB t = true → eqNullNoSparseB indices t = true) ∧
    (∀ cs, allUntaggedLB cs = true → eqNullNoSparseLB indices cs = true) := by
  have h1 : ∀ m p pl tg cs,
      (allUntaggedLB cs = true → eqNullNoSparseLB indices cs = true) →
      (allUntaggedB (.node m p pl tg cs) = true →
        eqNullNoSparseB indices (.node m p pl tg cs) = true) := by
    intro m p pl tg cs ih h
    simp only [allUntaggedB, Bool.and_eq_true] at h
    obtain ⟨h1, h2⟩ := h
    simp only [eqNullNoSparseB, Bool.and_eq_true]
    refine ⟨?_, ih h2⟩
    cases tg with
    | none => split <;> rfl
    | some _ => simp [Option.isNone] at h1
  have h2 : allUntaggedLB .nil = true → eqNullNoSparseLB indices .nil = true :=
    fun _ => rfl
  have h3 : ∀ c tl,
      (allUntaggedB c = true → eqNullNoSparseB indices c = true) →
      (allUntaggedLB tl = true → eqNullNoSparseLB indices tl = true) →
      (allUntaggedLB (.cons c tl) = true →
        eqNullNoSparseLB indices (.cons c tl) = true) := by
    intro c tl ihc ihl h
    simp only [allUntaggedLB, Bool.and_eq_true] at h
    simp only [eqNullNoSparseLB, Bool.and_eq_true]
    exact ⟨ihc h.1, ihl h.2⟩
  exact ⟨me_ind _ _ h1 h2 h3, mel_ind _ _ h1 h2 h3⟩

theorem allUntagged_norShielded :
    (∀ t, allUntaggedB t = true → norShieldedB t = true) ∧
    (∀ cs, allUntaggedLB cs = true → norShieldedLB cs = true) := by
  have h1 : ∀ m p pl tg cs,
      (allUntaggedLB cs = true → norShieldedLB cs = true) →
      (allUntaggedB (.node m p pl tg cs) = true →
        norShieldedB (.node m p pl tg cs) = true) := by
    intro m p pl tg cs ih h
    simp only [allUntaggedB, Bool.and_eq_true] at h
    obtain ⟨h1, h2⟩ := h
    simp only [norShieldedB, Bool.and_eq_true]
    refine ⟨?_, ih h2⟩
    split
    · exact h2
    · rfl
  have h2 : allUntaggedLB .nil = true → norShieldedLB .nil = true :=
    fun _ => rfl
  have h3 : ∀ c tl,
      (allUntaggedB c = true → norShieldedB c = true) →
      (allUntaggedLB tl = true → norShieldedLB tl = true) →
      (allUntaggedLB (.cons c tl) = true →
        norShieldedLB (.cons c tl) = true) := by
    intro c tl ihc ihl h
    simp only [allUntaggedLB, Bool.and_eq_true] at h
    simp only [norShieldedLB, Bool.and_eq_true]
    exact ⟨ihc h.1, ihl h.2⟩
  exact ⟨me_ind _ _ h1 h2 h3, mel_ind _ _ h1 h2 h3⟩

theorem allUntaggedB_children (c : MatchExpression)
    (h : allUntaggedB c = true) : allUntaggedLB c.children = true := by
  cases c with
  | node m p pl tg cs =>
    simp only [allUntaggedB, Bool.and_eq_true] at h
    exact h.2

theorem allUntaggedB_tag (c : MatchExpression)
    (h : allUntaggedB c = true) : c.getTag = none := by
  cases c with
  | node m p pl tg cs =>
    simp only [allUntaggedB, Bool.and_eq_true] at h
    cases tg with
    | none => rfl
    | some _ => simp [Option.isNone] at h

/-- The safety check on a fresh tag produced for a NOT node: every index it
lists is neither sparse nor multikey. -/
theorem rateAll_not_lists_safe (gm : GeoMath) (fp : String)
    (node : MatchExpression) (hmt : node.mt = .NOT) (indices : List IndexEntry)
    (fs nfs : List Nat) (hra : rateAll gm fp node 0 indices = some (fs, nfs)) :
    fs.all (idxNotSparseMultikey indices) = true ∧
    nfs.all (idxNotSparseMultikey indices) = true := by
  constructor <;> refine List.all_eq_true.mpr (fun k hk => ?_)
  · obtain ⟨ie, _, hget, e, _, _, hc⟩ :=
      rateAll_mem gm fp node indices 0 fs nfs hra k (Or.inl hk)
    rw [Nat.sub_zero, List.get?_eq_getElem?] at hget
    obtain ⟨hsp, hmk⟩ := compatible_not_sparse_multikey gm e ie node hmt hc
    simp [idxNotSparseMultikey, hget, hsp, hmk]
  · obtain ⟨ie, _, hget, e, _, _, hc⟩ :=
      rateAll_mem gm fp node indices 0 fs nfs hra k (Or.inr hk)
    rw [Nat.sub_zero, List.get?_eq_getElem?] at hget
    obtain ⟨hsp, hmk⟩ := compatible_not_sparse_multikey gm e ie node hmt hc
    simp [idxNotSparseMultikey, hget, hsp, hmk]

/-- After the tagging pass on an untagged tree, every NOT node's tag (and,
through the clone, its child's tag) lists only indexes that are neither
sparse nor multikey. -/
theorem rateIndices_notTagsSafe (gm : GeoMath) (indices : List IndexEntry) :
    (∀ t, ∀ pfx t', allUntaggedB t = true →
      rateIndices gm t pfx indices = some t' →
      notTagsSafeB indices t' = true) ∧
    (∀ cs, ∀ pfx cs', allUntaggedLB cs = true →
      rateIndicesL gm cs pfx indices = some cs' →
      notTagsSafeLB indices cs' = true) := by
  have hnode : ∀ m p pl tg cs,
      (∀ pfx cs', allUntaggedLB cs = true →
        rateIndicesL gm cs pfx indices = some cs' →
        notTagsSafeLB indices cs' = true) →
      (∀ pfx t', allUntaggedB (.node m p pl tg cs) = true →
        rateIndices gm (.node m p pl tg cs) pfx indices = some t' →
        notTagsSafeB indices t' = true) := by
    intro m p pl tg cs ih pfx t' hu hr
    simp only [allUntaggedB, Bool.and_eq_true] at hu
    obtain ⟨hu1, hu2⟩ := hu
    have htg : tg = none := by
      cases tg
      · rfl
      · simp [Option.isNone] at hu1
    subst htg
    simp only [rateIndices] at hr
    by_cases hnor : m = .NOR
    · rw [if_pos hnor] at hr
      cases hr
      exact (allUntagged_notTagsSafe indices).1 _
        (by simp [allUntaggedB, hu2])
    · rw [if_neg hnor] at hr
      by_cases hbg : isBoundsGenerating (.node m p pl none cs) = true
      · rw [if_pos hbg] at hr
        by_cases hnot : m = .NOT
        · rw [if_pos hnot] at hr
          cases hra : rateAll gm (pfx ++ (MatchExpression.node m p pl none cs).child0.path)
              (.node m p pl none cs) 0 indices with
          | none => rw [hra] at hr; cases hr
          | some fnf =>
            rw [hra] at hr
            cases hr
            obtain ⟨hsafe1, hsafe2⟩ := rateAll_not_lists_safe gm _ _
              (by simp [hnot]) indices fnf.1 fnf.2 hra
            cases cs with
            | nil =>
              simp only [MatchExpression.withChild0Tag, withTag_node]
              simp only [notTagsSafeB, Bool.and_eq_true]
              exact ⟨by simp [hsafe1, hsafe2], rfl⟩
            | cons c tl =>
              simp only [MatchExpression.withChild0Tag, withTag_node]
              simp only [notTagsSafeB, notTagsSafeLB, Bool.and_eq_true]
              refine ⟨by simp [hsafe1, hsafe2], ?_, ?_⟩
              · cases c with
                | node mc pc plc tgc csc =>
                  simp only [allUntaggedLB, Bool.and_eq_true] at hu2
                  simp only [MatchExpression.withTag]
                  simp only [notTagsSafeB, Bool.and_eq_true]
                  refine ⟨?_, (allUntagged_notTagsSafe indices).2 csc
                    (allUntaggedB_children _ hu2.1)⟩
                  split
                  · simp [hsafe1, hsafe2]
                  · rfl
              · simp only [allUntaggedLB, Bool.and_eq_true] at hu2
                exact (allUntagged_notTagsSafe indices).2 tl hu2.2
        · rw [if_neg hnot] at hr
          cases hra : rateAll gm (pfx ++ p) (.node m p pl none cs) 0 indices with
          | none => rw [hra] at hr; cases hr
          | some fnf =>
            rw [hra] at hr
            cases hr
            simp only [withTag_node, notTagsSafeB, Bool.and_eq_true]
            refine ⟨?_, (allUntagged_notTagsSafe indices).2 cs hu2⟩
            rw [if_neg hnot]
      · rw [if_neg hbg] at hr
        by_cases harr : arrayUsesIndexOnChildren (.node m p pl none cs) = true
        · rw [if_pos harr] at hr
          cases hcs : rateIndicesL gm cs (if p = "" then pfx else pfx ++ p ++ ".") indices with
          | none => rw [hcs] at hr; cases hr
          | some cs' =>
            rw [hcs] at hr
            cases hr
            simp only [withChildren_node, notTagsSafeB, Bool.and_eq_true]
            refine ⟨?_, ih _ cs' hu2 hcs⟩
            split <;> rfl
        · rw [if_neg harr] at hr
          by_cases hlog : isLogicalKind (.node m p pl none cs) = true
          · rw [if_pos hlog] at hr
            cases hcs : rateIndicesL gm cs pfx indices with
            | none => rw [hcs] at hr; cases hr
            | some cs' =>
              rw [hcs] at hr
              cases hr
              simp only [withChildren_node, notTagsSafeB, Bool.and_eq_true]
              refine ⟨?_, ih _ cs' hu2 hcs⟩
              split <;> rfl
          · rw [if_neg hlog] at hr
            cases hr
            exact (allUntagged_notTagsSafe indices).1 _
              (by simp [allUntaggedB, hu2])
  have hnil : ∀ pfx cs', allUntaggedLB .nil = true →
      rateIndicesL gm .nil pfx indices = some cs' →
      notTagsSafeLB indices cs' = true := by
    intro pfx cs' _ hr
    simp only [rateIndicesL] at hr
    cases hr
    rfl
  have hcons : ∀ c tl,
      (∀ pfx t', allUntaggedB c = true →
        rateIndices gm c pfx indices = some t' →
        notTagsSafeB indices t' = true) →
      (∀ pfx cs', allUntaggedLB tl = true →
        rateIndicesL gm tl pfx indices = some cs' →
        notTagsSafeLB indices cs' = true) →
      (∀ pfx cs', allUntaggedLB (.cons c tl) = true →
        rateIndicesL gm (.cons c tl) pfx indices = some cs' →
        notTagsSafeLB indices cs' = true) := by
    intro c tl ihc ihl pfx cs' hu hr
    simp only [allUntaggedLB, Bool.and_eq_true] at hu
    simp only [rateIndicesL] at hr
    cases hc : rateIndices gm c pfx indices with
    | none => rw [hc] at hr; cases hr
    | some c' =>
      rw [hc] at hr
      cases htl : rateIndicesL gm tl pfx indices with
      | none => rw [htl] at hr; cases hr
      | some tl' =>
        rw [htl] at hr
        cases hr
        simp only [notTagsSafeLB, Bool.and_eq_true]
        exact ⟨ihc pfx c' hu.1 hc, ihl pfx tl' hu.2 htl⟩
  exact ⟨me_ind _ _ hnode hnil hcons, mel_ind _ _ hnode hnil hcons⟩

theorem idxNotSparseMultikey_weaken (indices : List IndexEntry) (k : Nat)
    (h : idxNotSparseMultikey indices k = true) :
    idxNotSparse indices k = true := by
  unfold idxNotSparseMultikey at h
  unfold idxNotSparse
  revert h
  cases indices.get? k with
  | none => intro h; rfl
  | some ie =>
    intro h
    simp at h ⊢
    exact h.1

theorem ordinaryIndexB_elt (ie : IndexEntry) (hcat : ordinaryIndexB ie = true)
    (e : String × BSONValue) (he : e ∈ ie.keyPattern) :
    e.2.isStr = false ∨ ie.type = .INDEX_BTREE := by
  unfold ordinaryIndexB at hcat
  rcases Bool.or_eq_true _ _ |>.mp hcat with h | h
  · exact Or.inr (of_decide_eq_true h)
  · exact Or.inl (by simpa using List.all_eq_true.mp h e he)

/-- The sparse check on a fresh tag produced for an equality-on-null node
against an all-ordinary catalog: no listed index is sparse. -/
theorem rateAll_eqnull_lists_safe (gm : GeoMath) (fp : String)
    (node : MatchExpression) (hmt : node.mt = .EQ)
    (hnull : node.eqDataIsNull = true) (indices : List IndexEntry)
    (hcat : ∀ ie ∈ indices, ordinaryIndexB ie = true)
    (fs nfs : List Nat) (hra : rateAll gm fp node 0 indices = some (fs, nfs)) :
    fs.all (idxNotSparse indices) = true ∧
    nfs.all (idxNotSparse indices) = true := by
  constructor <;> refine List.all_eq_true.mpr (fun k hk => ?_)
  · obtain ⟨ie, _, hget, e, hekp, _, hc⟩ :=
      rateAll_mem gm fp node indices 0 fs nfs hra k (Or.inl hk)
    rw [Nat.sub_zero] at hget
    have hmem : ie ∈ indices := List.get?_mem hget
    have hord := ordinaryIndexB_elt ie (hcat ie hmem) e hekp
    have hsp := compatible_eq_null_true_not_sparse gm e ie node hord hmt hnull hc
    rw [List.get?_eq_getElem?] at hget
    simp [idxNotSparse, hget, hsp]
  · obtain ⟨ie, _, hget, e, hekp, _, hc⟩ :=
      rateAll_mem gm fp node indices 0 fs nfs hra k (Or.inr hk)
    rw [Nat.sub_zero] at hget
    have hmem : ie ∈ indices := List.get?_mem hget
    have hord := ordinaryIndexB_elt ie (hcat ie hmem) e hekp
    have hsp := compatible_eq_null_true_not_sparse gm e ie node hord hmt hnull hc
    rw [List.get?_eq_getElem?] at hget
    simp [idxNotSparse, hget, hsp]

/-- After the tagging pass on an untagged tree against an all-ordinary
catalog, no equality-on-null node's tag lists a sparse index. -/
theorem rateIndices_eqNullNoSparse (gm : GeoMath) (indices : List IndexEntry)
    (hcat : ∀ ie ∈ indices, ordinaryIndexB ie = true) :
    (∀ t, ∀ pfx t', allUntaggedB t = true →
      rateIndices gm t pfx indices = some t' →
      eqNullNoSparseB indices t' = true) ∧
    (∀ cs, ∀ pfx cs', allUntaggedLB cs = true →
      rateIndicesL gm cs pfx indices = some cs' →
      eqNullNoSparseLB indices cs' = true) := by
  have hnode : ∀ m p pl tg cs,
      (∀ pfx cs', allUntaggedLB cs = true →
        rateIndicesL gm cs pfx indices = some cs' →
        eqNullNoSparseLB indices cs' = true) →
      (∀ pfx t', allUntaggedB (.node m p pl tg cs) = true →
        rateIndices gm (.node m p pl tg cs) pfx indices = some t' →
        eqNullNoSparseB indices t' = true) := by
    intro m p pl tg cs ih pfx t' hu hr
    simp only [allUntaggedB, Bool.and_eq_true] at hu
    obtain ⟨hu1, hu2⟩ := hu
    have htg : tg = none := by
      cases tg
      · rfl
      · simp [Option.isNone] at hu1
    subst htg
    simp only [rateIndices] at hr
    by_cases hnor : m = .NOR
    · rw [if_pos hnor] at hr
      cases hr
      exact (allUntagged_eqNullNoSparse indices).1 _
        (by simp [allUntaggedB, hu2])
    · rw [if_neg hnor] at hr
      by_cases hbg : isBoundsGenerating (.node m p pl none cs) = true
      · rw [if_pos hbg] at hr
        by_cases hnot : m = .NOT
        · rw [if_pos hnot] at hr
          cases hra : rateAll gm (pfx ++ (MatchExpression.node m p pl none cs).child0.path)
              (.node m p pl none cs) 0 indices with
          | none => rw [hra] at hr; cases hr
          | some fnf =>
            rw [hra] at hr
            cases hr
            obtain ⟨hsafe1, hsafe2⟩ := rateAll_not_lists_safe gm _ _
              (by simp [hnot]) indices fnf.1 fnf.2 hra
            have hsafe1' := idxNotSparseMultikey_weaken indices
            have hall1 : (fnf.1).all (idxNotSparse indices) = true :=
              List.all_eq_true.mpr fun k hk =>
                idxNotSparseMultikey_weaken indices k
                  (List.all_eq_true.mp hsafe1 k hk)
            have hall2 : (fnf.2).all (idxNotSparse indices) = true :=
              List.all_eq_true.mpr fun k hk =>
                idxNotSparseMultikey_weaken indices k
                  (List.all_eq_true.mp hsafe2 k hk)
            cases cs with
            | nil =>
              simp only [MatchExpression.withChild0Tag, withTag_node]
              simp only [eqNullNoSparseB, Bool.and_eq_true]
              refine ⟨?_, rfl⟩
              split
              · simp [hall1, hall2]
              · rfl
            | cons c tl =>
              simp only [MatchExpression.withChild0Tag, withTag_node]
              simp only [eqNullNoSparseB, eqNullNoSparseLB, Bool.and_eq_true]
              refine ⟨?_, ?_, ?_⟩
              · split
                · simp [hall1, hall2]
                · rfl
              · cases c with
                | node mc pc plc tgc csc =>
                  simp only [allUntaggedLB, Bool.and_eq_true] at hu2
                  simp only [MatchExpression.withTag]
                  simp only [eqNullNoSparseB, Bool.and_eq_true]
                  refine ⟨?_, (allUntagged_eqNullNoSparse indices).2 csc
                    (allUntaggedB_children _ hu2.1)⟩
                  split
                  · simp [hall1, hall2]
                  · rfl
              · simp only [allUntaggedLB, Bool.and_eq_true] at hu2
                exact (allUntagged_eqNullNoSparse indices).2 tl hu2.2
        · rw [if_neg hnot] at hr
          cases hra : rateAll gm (pfx ++ p) (.node m p pl none cs) 0 indices with
          | none => rw [hra] at hr; cases hr
          | some fnf =>
            rw [hra] at hr
            cases hr
            simp only [withTag_node, eqNullNoSparseB, Bool.and_eq_true]
            refine ⟨?_, (allUntagged_eqNullNoSparse indices).2 cs hu2⟩
            split
            · rename_i heq
              obtain ⟨hmeq, hnull⟩ := heq
              obtain ⟨hall1, hall2⟩ := rateAll_eqnull_lists_safe gm (pfx ++ p)
                (.node m p pl none cs) (by simp [hmeq]) (by simpa using hnull)
                indices hcat fnf.1 fnf.2 hra
              simp [hall1, hall2]
            · rfl
      · rw [if_neg hbg] at hr
        by_cases harr : arrayUsesIndexOnChildren (.node m p pl none cs) = true
        · rw [if_pos harr] at hr
          cases hcs : rateIndicesL gm cs (if p = "" then pfx else pfx ++ p ++ ".") indices with
          | none => rw [hcs] at hr; cases hr
          | some cs' =>
            rw [hcs] at hr
            cases hr
            simp only [withChildren_node, eqNullNoSparseB, Bool.and_eq_true]
            refine ⟨?_, ih _ cs' hu2 hcs⟩
            split <;> rfl
        · rw [if_neg harr] at hr
          by_cases hlog : isLogicalKind (.node m p pl none cs) = true
          · rw [if_pos hlog] at hr
            cases hcs : rateIndicesL gm cs pfx indices with
            | none => rw [hcs] at hr; cases hr
            | some cs' =>
              rw [hcs] at hr
              cases hr
              simp only [withChildren_node, eqNullNoSparseB, Bool.and_eq_true]
              refine ⟨?_, ih _ cs' hu2 hcs⟩
              split <;> rfl
          · rw [if_neg hlog] at hr
            cases hr
            exact (allUntagged_eqNullNoSparse indices).1 _
              (by simp [allUntaggedB, hu2])
  have hnil : ∀ pfx cs', allUntaggedLB .nil = true →
      rateIndicesL gm .nil pfx indices = some cs' →
      eqNullNoSparseLB indices cs' = true := by
    intro pfx cs' _ hr
    simp only [rateIndicesL] at hr
    cases hr
    rfl
  have hcons : ∀ c tl,
      (∀ pfx t', allUntaggedB c = true →
        rateIndices gm c pfx indices = some t' →
        eqNullNoSparseB indices t' = true) →
      (∀ pfx cs', allUntaggedLB tl = true →
        rateIndicesL gm tl pfx indices = some cs' →
        eqNullNoSparseLB indices cs' = true) →
      (∀ pfx cs', allUntaggedLB (.cons c tl) = true →
        rateIndicesL gm (.cons c tl) pfx indices = some cs' →
        eqNullNoSparseLB indices cs' = true) := by
    intro c tl ihc ihl pfx cs' hu hr
    simp only [allUntaggedLB, Bool.and_eq_true] at hu
    simp only [rateIndicesL] at hr
    cases hc : rateIndices gm c pfx indices with
    | none => rw [hc] at hr; cases hr
    | some c' =>
      rw [hc] at hr
      cases htl : rateIndicesL gm tl pfx indices with
      | none => rw [htl] at hr; cases hr
      | some tl' =>
        rw [htl] at hr
        cases hr
        simp only [eqNullNoSparseLB, Bool.and_eq_true]
        exact ⟨ihc pfx c' hu.1 hc, ihl pfx tl' hu.2 htl⟩
  exact ⟨me_ind _ _ hnode hnil hcons, mel_ind _ _ hnode hnil hcons⟩

theorem norShieldedB_withTag (c : MatchExpression) (tg : Option RelevantTag) :
    norShieldedB (c.withTag tg) = norShieldedB c := by
  cases c with
  | node m p pl tg0 cs => rfl

/-- After the tagging pass on an untagged tree, every NOR subtree is still
entirely untagged: nothing beneath a NOR is ever tagged. -/
theorem rateIndices_norShielded (gm : GeoMath) (indices : List IndexEntry) :
    (∀ t, ∀ pfx t', allUntaggedB t = true →
      rateIndices gm t pfx indices = some t' →
      norShieldedB t' = true) ∧
    (∀ cs, ∀ pfx cs', allUntaggedLB cs = true →
      rateIndicesL gm cs pfx indices = some cs' →
      norShieldedLB cs' = true) := by
  have hnode : ∀ m p pl tg cs,
      (∀ pfx cs', allUntaggedLB cs = true →
        rateIndicesL gm cs pfx indices = some cs' →
        norShieldedLB cs' = true) →
      (∀ pfx t', allUntaggedB (.node m p pl tg cs) = true →
        rateIndices gm (.node m p pl tg cs) pfx indices = some t' →
        norShieldedB t' = true) := by
    intro m p pl tg cs ih pfx t' hu hr
    simp only [allUntaggedB, Bool.and_eq_true] at hu
    obtain ⟨hu1, hu2⟩ := hu
    have htg : tg = none := by
      cases tg
      · rfl
      · simp [Option.isNone] at hu1
    subst htg
    simp only [rateIndices] at hr
    by_cases hnor : m = .NOR
    · rw [if_pos hnor] at hr
      cases hr
      exact allUntagged_norShielded.1 _ (by simp [allUntaggedB, hu2])
    · rw [if_neg hnor] at hr
      by_cases hbg : isBoundsGenerating (.node m p pl none cs) = true
      · rw [if_pos hbg] at hr
        by_cases hnot : m = .NOT
        · rw [if_pos hnot] at hr
          cases hra : rateAll gm (pfx ++ (MatchExpression.node m p pl none cs).child0.path)
              (.node m p pl none cs) 0 indices with
          | none => rw [hra] at hr; cases hr
          | some fnf =>
            rw [hra] at hr
            cases hr
            cases cs with
            | nil =>
              simp only [MatchExpression.withChild0Tag, withTag_node]
              simp only [norShieldedB, Bool.and_eq_true]
              exact ⟨by simp [hnor], rfl⟩
            | cons c tl =>
              simp only [MatchExpression.withChild0Tag, withTag_node]
              simp only [norShieldedB, norShieldedLB, Bool.and_eq_true]
              simp only [allUntaggedLB, Bool.and_eq_true] at hu2
              refine ⟨by simp [hnor], ?_, ?_⟩
              · rw [norShieldedB_withTag]
                exact allUntagged_norShielded.1 c hu2.1
              · exact allUntagged_norShielded.2 tl hu2.2
        · rw [if_neg hnot] at hr
          cases hra : rateAll gm (pfx ++ p) (.node m p pl none cs) 0 indices with
          | none => rw [hra] at hr; cases hr
          | some fnf =>
            rw [hra] at hr
            cases hr
            simp only [withTag_node, norShieldedB, Bool.and_eq_true]
            exact ⟨by simp [hnor], allUntagged_norShielded.2 cs hu2⟩
      · rw [if_neg hbg] at hr
        by_cases harr : arrayUsesIndexOnChildren (.node m p pl none cs) = true
        · rw [if_pos harr] at hr
          cases hcs : rateIndicesL gm cs (if p = "" then pfx else pfx ++ p ++ ".") indices with
          | none => rw [hcs] at hr; cases hr
          | some cs' =>
            rw [hcs] at hr
            cases hr
            simp only [withChildren_node, norShieldedB, Bool.and_eq_true]
            exact ⟨by simp [hnor], ih _ cs' hu2 hcs⟩
        · rw [if_neg harr] at hr
          by_cases hlog : isLogicalKind (.node m p pl none cs) = true
          · rw [if_pos hlog] at hr
            cases hcs : rateIndicesL gm cs pfx indices with
            | none => rw [hcs] at hr; cases hr
            | some cs' =>
              rw [hcs] at hr
              cases hr
              simp only [withChildren_node, norShieldedB, Bool.and_eq_true]
              exact ⟨by simp [hnor], ih _ cs' hu2 hcs⟩
          · rw [if_neg hlog] at hr
            cases hr
            exact allUntagged_norShielded.1 _ (by simp [allUntaggedB, hu2])
  have hnil : ∀ pfx cs', allUntaggedLB .nil = true →
      rateIndicesL gm .nil pfx indices = some cs' →
      norShieldedLB cs' = true := by
    intro pfx cs' _ hr
    simp only [rateIndicesL] at hr
    cases hr
    rfl
  have hcons : ∀ c tl,
      (∀ pfx t', allUntaggedB c = true →
        rateIndices gm c pfx indices = some t' →
        norShieldedB t' = true) →
      (∀ pfx cs', allUntaggedLB tl = true →
        rateIndicesL gm tl pfx indices = some cs' →
        norShieldedLB cs' = true) →
      (∀ pfx cs', allUntaggedLB (.cons c tl) = true →
        rateIndicesL gm (.cons c tl) pfx indices = some cs' →
        norShieldedLB cs' = true) := by
    intro c tl ihc ihl pfx cs' hu hr
    simp only [allUntaggedLB, Bool.and_eq_true] at hu
    simp only [rateIndicesL] at hr
    cases hc : rateIndices gm c pfx indices with
    | none => rw [hc] at hr; cases hr
    | some c' =>
      rw [hc] at hr
      cases htl : rateIndicesL gm tl pfx indices with
      | none => rw [htl] at hr; cases hr
      | some tl' =>
        rw [htl] at hr
        cases hr
        simp only [norShieldedLB, Bool.and_eq_true]
        exact ⟨ihc pfx c' hu.1 hc, ihl pfx tl' hu.2 htl⟩
  exact ⟨me_ind _ _ hnode hnil hcons, mel_ind _ _ hnode hnil hcons⟩

theorem rateIndices_root (gm : GeoMath) (indices : List IndexEntry)
    (c c' : MatchExpression) (pfx : String)
    (hr : rateIndices gm c pfx indices = some c') :
    c'.mt = c.mt ∧ c'.path = c.path := by
  cases c with
  | node m p pl tg cs =>
    simp only [rateIndices] at hr
    by_cases hnor : m = .NOR
    · rw [if_pos hnor] at hr
      cases hr
      exact ⟨rfl, rfl⟩
    · rw [if_neg hnor] at hr
      by_cases hbg : isBoundsGenerating (.node m p pl tg cs) = true
      · rw [if_pos hbg] at hr
        cases tg with
        | some rt => cases hr
        | none =>
          by_cases hnot : m = .NOT
          · rw [if_pos hnot] at hr
            cases hra : rateAll gm (pfx ++ (MatchExpression.node m p pl none cs).child0.path)
                (.node m p pl none cs) 0 indices with
            | none => rw [hra] at hr; cases hr
            | some fnf =>
              rw [hra] at hr
              cases hr
              cases cs with
              | nil => exact ⟨rfl, rfl⟩
              | cons c0 tl => exact ⟨rfl, rfl⟩
          · rw [if_neg hnot] at hr
            cases hra : rateAll gm (pfx ++ p) (.node m p pl none cs) 0 indices with
            | none => rw [hra] at hr; cases hr
            | some fnf =>
              rw [hra] at hr
              cases hr
              exact ⟨rfl, rfl⟩
      · rw [if_neg hbg] at hr
        by_cases harr : arrayUsesIndexOnChildren (.node m p pl tg cs) = true
        · rw [if_pos harr] at hr
          cases hcs : rateIndicesL gm cs (if p = "" then pfx else pfx ++ p ++ ".") indices with
          | none => rw [hcs] at hr; cases hr
          | some cs' =>
            rw [hcs] at hr
            cases hr
            exact ⟨rfl, rfl⟩
        · rw [if_neg harr] at hr
          by_cases hlog : isLogicalKind (.node m p pl tg cs) = true
          · rw [if_pos hlog] at hr
            cases hcs : rateIndicesL gm cs pfx indices with
            | none => rw [hcs] at hr; cases hr
            | some cs' =>
              rw [hcs] at hr
              cases hr
              exact ⟨rfl, rfl⟩
          · rw [if_neg hlog] at hr
            cases hr
            exact ⟨rfl, rfl⟩

theorem rateIndicesL_cons (gm : GeoMath) (indices : List IndexEntry)
    (pfx : String) (c : MatchExpression) (tl cs' : MEList)
    (hr : rateIndicesL gm (.cons c tl) pfx indices = some cs') :
    ∃ c' tl', cs' = .cons c' tl' ∧ rateIndices gm c pfx indices = some c' ∧
      rateIndicesL gm tl pfx indices = some tl' := by
  simp only [rateIndicesL] at hr
  cases hc : rateIndices gm c pfx indices with
  | none => rw [hc] at hr; cases hr
  | some c' =>
    rw [hc] at hr
    cases htl : rateIndicesL gm tl pfx indices with
    | none => rw [htl] at hr; cases hr
    | some tl' =>
      rw [htl] at hr
      cases hr
      exact ⟨c', tl', rfl, rfl, rfl⟩

theorem nodeCanUse_congr (c c' : MatchExpression) (hmt : c'.mt = c.mt)
    (hp : c'.path = c.path) :
    nodeCanUseIndexOnOwnField c' = nodeCanUseIndexOnOwnField c := by
  unfold nodeCanUseIndexOnOwnField arrayUsesIndexOnChildren
  rw [hmt, hp]

/-- Rating a child list preserves whether the parent node is
bounds-generating (only tags change, never kinds or paths). -/
theorem isBoundsGenerating_rateIndicesL (gm : GeoMath)
    (indices : List IndexEntry) (pfx : String) (m : MatchType) (p : String)
    (pl : Payload) (tg tg2 : Option RelevantTag) (cs cs' : MEList)
    (hr : rateIndicesL gm cs pfx indices = some cs') :
    isBoundsGenerating (.node m p pl tg2 cs') =
      isBoundsGenerating (.node m p pl tg cs) := by
  cases cs with
  | nil =>
    simp only [rateIndicesL] at hr
    cases hr
    rfl
  | cons c tl =>
    obtain ⟨c', tl', rfl, hc, htl⟩ := rateIndicesL_cons gm indices pfx c tl cs' hr
    obtain ⟨hmt, hp⟩ := rateIndices_root gm indices c c' pfx hc
    unfold isBoundsGenerating
    have h1 : nodeCanUseIndexOnOwnField (MatchExpression.node m p pl tg2 (.cons c' tl')) =
        nodeCanUseIndexOnOwnField (MatchExpression.node m p pl tg (.cons c tl)) :=
      nodeCanUse_congr _ _ rfl rfl
    have h2 : (MatchExpression.node m p pl tg2 (.cons c' tl')).child0 = c' := rfl
    have h3 : (MatchExpression.node m p pl tg (.cons c tl)).child0 = c := rfl
    rw [h1, h2, h3, nodeCanUse_congr c c' hmt hp]
    simp

theorem nodeCanUse_withTag (c : MatchExpression) (tg : Option RelevantTag) :
    nodeCanUseIndexOnOwnField (c.withTag tg) = nodeCanUseIndexOnOwnField c := by
  cases c with
  | node m p pl tg0 cs => rfl

/-- After the tagging pass on an untagged tree, the output obeys the tagging
discipline: reachable bounds-generating nodes (and, for a NOT, its first
child) carry exactly one tag; NOR subtrees, own-field interiors and all
other nodes stay untagged. -/
theorem rateIndices_rateTagOK (gm : GeoMath) (indices : List IndexEntry) :
    (∀ t, ∀ pfx t', allUntaggedB t = true →
      rateIndices gm t pfx indices = some t' →
      rateTagOKB t' = true) ∧
    (∀ cs, ∀ pfx cs', allUntaggedLB cs = true →
      rateIndicesL gm cs pfx indices = some cs' →
      rateTagOKLB cs' = true) := by
  have hnode : ∀ m p pl tg cs,
      (∀ pfx cs', allUntaggedLB cs = true →
        rateIndicesL gm cs pfx indices = some cs' →
        rateTagOKLB cs' = true) →
      (∀ pfx t', allUntaggedB (.node m p pl tg cs) = true →
        rateIndices gm (.node m p pl tg cs) pfx indices = some t' →
        rateTagOKB t' = true) := by
    intro m p pl tg cs ih pfx t' hu hr
    simp only [allUntaggedB, Bool.and_eq_true] at hu
    obtain ⟨hu1, hu2⟩ := hu
    have htg : tg = none := by
      cases tg
      · rfl
      · simp [Option.isNone] at hu1
    subst htg
    simp only [rateIndices] at hr
    by_cases hnor : m = .NOR
    · rw [if_pos hnor] at hr
      cases hr
      simp only [rateTagOKB, mt_node]
      rw [if_pos hnor]
      simp [Option.isNone, hu2]
    · rw [if_neg hnor] at hr
      by_cases hbg : isBoundsGenerating (.node m p pl none cs) = true
      · rw [if_pos hbg] at hr
        by_cases hnot : m = .NOT
        · rw [if_pos hnot] at hr
          cases hra : rateAll gm (pfx ++ (MatchExpression.node m p pl none cs).child0.path)
              (.node m p pl none cs) 0 indices with
          | none => rw [hra] at hr; cases hr
          | some fnf =>
            rw [hra] at hr
            cases hr
            cases cs with
            | nil =>
              simp only [MatchExpression.withChild0Tag, withTag_node]
              simp only [rateTagOKB, mt_node]
              rw [if_neg hnor, if_pos (by
                have : isBoundsGenerating (MatchExpression.node m p pl
                    (some ⟨pfx ++ (MatchExpression.node m p pl none MEList.nil).child0.path,
                      fnf.1, fnf.2⟩) MEList.nil) =
                    isBoundsGenerating (.node m p pl none MEList.nil) := by
                  unfold isBoundsGenerating
                  rw [nodeCanUse_congr _ _ rfl rfl]
                  rfl
                rw [this]
                exact hbg)]
              rw [if_pos hnot]
              simp
            | cons c tl =>
              simp only [MatchExpression.withChild0Tag, withTag_node]
              simp only [allUntaggedLB, Bool.and_eq_true] at hu2
              simp only [rateTagOKB, mt_node]
              rw [if_neg hnor, if_pos (by
                have : isBoundsGenerating (MatchExpression.node m p pl
                    (some ⟨pfx ++ (MatchExpression.node m p pl none (.cons c tl)).child0.path,
                      fnf.1, fnf.2⟩) (.cons (c.withTag (some ⟨pfx ++ (MatchExpression.node m p pl none (.cons c tl)).child0.path, fnf.1, fnf.2⟩)) tl)) =
                    isBoundsGenerating (.node m p pl none (.cons c tl)) := by
                  unfold isBoundsGenerating
                  rw [nodeCanUse_congr _ _ rfl rfl]
                  have hc0 : (MatchExpression.node m p pl
                      (some ⟨pfx ++ (MatchExpression.node m p pl none (.cons c tl)).child0.path,
                        fnf.1, fnf.2⟩) (.cons (c.withTag (some ⟨pfx ++ (MatchExpression.node m p pl none (.cons c tl)).child0.path, fnf.1, fnf.2⟩)) tl)).child0 =
                      c.withTag (some ⟨pfx ++ (MatchExpression.node m p pl none (.cons c tl)).child0.path, fnf.1, fnf.2⟩) := rfl
                  rw [hc0, nodeCanUse_withTag]
                  rfl
                rw [this]
                exact hbg)]
              rw [if_pos hnot]
              cases c with
              | node mc pc plc tgc csc =>
                simp only [MatchExpression.withTag]
                simp only [allUntaggedB, Bool.and_eq_true] at hu2
                simp [Option.isSome, hu2.1.2, hu2.2]
        · rw [if_neg hnot] at hr
          cases hra : rateAll gm (pfx ++ p) (.node m p pl none cs) 0 indices with
          | none => rw [hra] at hr; cases hr
          | some fnf =>
            rw [hra] at hr
            cases hr
            simp only [withTag_node, rateTagOKB, mt_node]
            rw [if_neg hnor, if_pos (by
              have : isBoundsGenerating (MatchExpression.node m p pl
                  (some ⟨pfx ++ p, fnf.1, fnf.2⟩) cs) =
                  isBoundsGenerating (.node m p pl none cs) := by
                unfold isBoundsGenerating
                rw [nodeCanUse_congr _ _ rfl rfl]
                cases cs <;> rfl
              rw [this]
              exact hbg)]
            rw [if_neg hnot]
            simp [Option.isSome, hu2]
      · rw [if_neg hbg] at hr
        by_cases harr : arrayUsesIndexOnChildren (.node m p pl none cs) = true
        · rw [if_pos harr] at hr
          cases hcs : rateIndicesL gm cs (if p = "" then pfx else pfx ++ p ++ ".") indices with
          | none => rw [hcs] at hr; cases hr
          | some cs' =>
            rw [hcs] at hr
            cases hr
            simp only [withChildren_node, rateTagOKB, mt_node]
            rw [if_neg hnor,
              if_neg (by rw [isBoundsGenerating_rateIndicesL gm indices _ m p pl none none cs cs' hcs]; simpa using hbg),
              if_pos (by simpa [arrayUsesIndexOnChildren] using harr)]
            simp [Option.isNone, ih _ cs' hu2 hcs]
        · rw [if_neg harr] at hr
          by_cases hlog : isLogicalKind (.node m p pl none cs) = true
          · rw [if_pos hlog] at hr
            cases hcs : rateIndicesL gm cs pfx indices with
            | none => rw [hcs] at hr; cases hr
            | some cs' =>
              rw [hcs] at hr
              cases hr
              simp only [withChildren_node, rateTagOKB, mt_node]
              rw [if_neg hnor,
                if_neg (by rw [isBoundsGenerating_rateIndicesL gm indices pfx m p pl none none cs cs' hcs]; simpa using hbg),
                if_neg (by simpa [arrayUsesIndexOnChildren] using harr),
                if_pos (by simpa [isLogicalKind] using hlog)]
              simp [Option.isNone, ih _ cs' hu2 hcs]
          · rw [if_neg hlog] at hr
            cases hr
            simp only [rateTagOKB, mt_node]
            rw [if_neg hnor, if_neg (by simpa using hbg),
              if_neg (by simpa [arrayUsesIndexOnChildren] using harr),
              if_neg (by simpa [isLogicalKind] using hlog)]
            simp [Option.isNone, hu2]
  have hnil : ∀ pfx cs', allUntaggedLB .nil = true →
      rateIndicesL gm .nil pfx indices = some cs' →
      rateTagOKLB cs' = true := by
    intro pfx cs' _ hr
    simp only [rateIndicesL] at hr
    cases hr
    rfl
  have hcons : ∀ c tl,
      (∀ pfx t', allUntaggedB c = true →
        rateIndices gm c pfx indices = some t' →
        rateTagOKB t' = true) →
      (∀ pfx cs', allUntaggedLB tl = true →
        rateIndicesL gm tl pfx indices = some cs' →
        rateTagOKLB cs' = true) →
      (∀ pfx cs', allUntaggedLB (.cons c tl) = true →
        rateIndicesL gm (.cons c tl) pfx indices = some cs' →
        rateTagOKLB cs' = true) := by
    intro c tl ihc ihl pfx cs' hu hr
    simp only [allUntaggedLB, Bool.and_eq_true] at hu
    obtain ⟨c', tl', rfl, hc, htl⟩ := rateIndicesL_cons gm indices pfx c tl cs' hr
    simp only [rateTagOKLB, Bool.and_eq_true]
    exact ⟨ihc pfx c' hu.1 hc, ihl pfx tl' hu.2 htl⟩
  exact ⟨me_ind _ _ hnode hnil hcons, mel_ind _ _ hnode hnil hcons⟩

/-- Plain structural induction on child lists alone. -/
theorem MEList.ind (Q : MEList → Prop) (nil : Q .nil)
    (cons : ∀ c tl, Q tl → Q (.cons c tl)) : ∀ cs, Q cs :=
  mel_ind (fun _ => True) Q (fun _ _ _ _ _ _ => trivial) nil
    (fun c tl _ h => cons c tl h)

theorem wfTagsLB_eq_all : ∀ cs, wfTagsLB cs = MEAllB wfTagsB cs := by
  intro cs
  induction cs using MEList.ind with
  | nil => rfl
  | cons c tl ih => simp only [wfTagsLB, MEAllB, ih]

theorem onceTagLB_eq_all (idx : Nat) :
    ∀ cs, onceTagLB idx cs = MEAllB (onceTagB idx) cs := by
  intro cs
  induction cs using MEList.ind with
  | nil => rfl
  | cons c tl ih => simp only [onceTagLB, MEAllB, ih]

theorem noExposedLB_eq_all (idx : Nat) :
    ∀ cs, noExposedLB idx cs = MEAllB (noExposedB idx) cs := by
  intro cs
  induction cs using MEList.ind with
  | nil => rfl
  | cons c tl ih => simp only [noExposedLB, MEAllB, ih]

theorem andsGoodLB_eq_all (idx : Nat) (pp : List String) :
    ∀ cs, andsGoodLB idx pp cs = MEAllB (andsGoodB idx pp) cs := by
  intro cs
  induction cs using MEList.ind with
  | nil => rfl
  | cons c tl ih => simp only [andsGoodLB, MEAllB, ih]

theorem MEAll2_transfer (R : MatchExpression → MatchExpression → Prop)
    (p q : MatchExpression → Bool)
    (hpq : ∀ c c', R c c' → p c = true → q c' = true) :
    ∀ cs cs', MEAll2 R cs cs' → MEAllB p cs = true → MEAllB q cs' = true := by
  intro cs
  induction cs using MEList.ind with
  | nil =>
    intro cs' h hp
    cases cs' with
    | nil => rfl
    | cons c' tl' => cases h
  | cons c tl ih =>
    intro cs' h hp
    cases cs' with
    | nil => cases h
    | cons c' tl' =>
      obtain ⟨h1, h2⟩ := h
      simp only [MEAllB, Bool.and_eq_true] at hp ⊢
      exact ⟨hpq c c' h1 hp.1, ih tl' h2 hp.2⟩

theorem stripListWith_rel (f : MatchExpression → Option MatchExpression)
    (R : MatchExpression → MatchExpression → Prop)
    (H : ∀ c c', f c = some c' → R c c') :
    ∀ cs cs', stripListWith f cs = some cs' → MEAll2 R cs cs' := by
  intro cs
  induction cs using MEList.ind with
  | nil =>
    intro cs' h
    simp only [stripListWith] at h
    cases h
    trivial
  | cons c tl ih =>
    intro cs' h
    simp only [stripListWith] at h
    cases hc : f c with
    | none => rw [hc] at h; cases h
    | some c' =>
      rw [hc] at h
      cases htl : stripListWith f tl with
      | none => rw [htl] at h; cases h
      | some tl' =>
        rw [htl] at h
        cases h
        exact ⟨H c c' hc, ih tl' htl⟩

theorem stripPassOne_rel (f : MatchExpression → Option MatchExpression)
    (idx : Nat) (R : MatchExpression → MatchExpression → Prop)
    (H : ∀ c c', refsB idx c = false → f c = some c' → R c c')
    (Hrefl : ∀ c, refsB idx c = true → R c c) :
    ∀ cs ht rem cs' ht' rem',
      stripPassOne f idx cs ht rem = some (cs', ht', rem') →
      MEAll2 R cs cs' := by
  intro cs
  induction cs using MEList.ind with
  | nil =>
    intro ht rem cs' ht' rem' h
    simp only [stripPassOne] at h
    cases h
    trivial
  | cons c tl ih =>
    intro ht rem cs' ht' rem' h
    simp only [stripPassOne] at h
    cases htg : c.getTag with
    | none =>
      rw [htg] at h
      dsimp only at h
      have hrf : refsB idx c = false := by simp [refsB, htg]
      cases hc : f c with
      | none => rw [hc] at h; cases h
      | some c' =>
        rw [hc] at h
        cases hr : stripPassOne f idx tl ht rem with
        | none => rw [hr] at h; cases h
        | some r =>
          obtain ⟨r1, r2, r3⟩ := r
          rw [hr] at h
          cases h
          exact ⟨H c c' hrf hc, ih _ _ _ _ _ hr⟩
    | some tg =>
      rw [htg] at h
      dsimp only at h
      by_cases href : (tg.first.contains idx || tg.notFirst.contains idx) = true
      · rw [if_pos href] at h
        have hrt : refsB idx c = true := by
          simp [refsB, htg, RelevantTag.refsIdx]
          simpa using href
        by_cases htext : c.mt = .TEXT
        · rw [if_pos htext] at h
          cases hr : stripPassOne f idx tl true rem with
          | none => rw [hr] at h; cases h
          | some r =>
            obtain ⟨r1, r2, r3⟩ := r
            rw [hr] at h
            cases h
            exact ⟨Hrefl c hrt, ih _ _ _ _ _ hr⟩
        · rw [if_neg htext] at h
          cases hr : stripPassOne f idx tl ht (rem.erase c.path) with
          | none => rw [hr] at h; cases h
          | some r =>
            obtain ⟨r1, r2, r3⟩ := r
            rw [hr] at h
            cases h
            exact ⟨Hrefl c hrt, ih _ _ _ _ _ hr⟩
      · rw [if_neg href] at h
        have hrf : refsB idx c = false := by
          simp [refsB, htg, RelevantTag.refsIdx]
          simpa using href
        cases hc : f c with
        | none => rw [hc] at h; cases h
        | some c' =>
          rw [hc] at h
          cases hr : stripPassOne f idx tl ht rem with
          | none => rw [hr] at h; cases h
          | some r =>
            obtain ⟨r1, r2, r3⟩ := r
            rw [hr] at h
            cases h
            exact ⟨H c c' hrf hc, ih _ _ _ _ _ hr⟩

/-- The enforcer never changes a node's kind, path, payload, or tag presence,
and never introduces a reference to the stripped index at the root. -/
theorem stripF_root (n idx : Nat) (pp : List String) (t t' : MatchExpression)
    (h : stripF n idx pp t = some t') :
    t'.mt = t.mt ∧ t'.path = t.path ∧ t'.payload = t.payload ∧
    t'.getTag.isSome = t.getTag.isSome ∧
    (refsB idx t = false → refsB idx t' = false) := by
  cases n with
  | zero => cases h
  | succ n =>
    cases t with
    | node m p pl tg cs =>
      simp only [stripF] at h
      by_cases hof : nodeCanUseIndexOnOwnField (.node m p pl tg cs) = true
      · rw [if_pos hof] at h
        unfold removeIndexRelevantTag at h
        cases tg with
        | none => simp only [getTag_node] at h; cases h
        | some tg0 =>
          simp only [getTag_node] at h
          try dsimp only at h
          cases h
          refine ⟨rfl, rfl, rfl, rfl, ?_⟩
          intro hrf
          simp only [refsB, getTag_node, RelevantTag.refsIdx,
            Bool.or_eq_false_iff] at hrf
          obtain ⟨h1, h2⟩ := hrf
          simp only [refsB, MatchExpression.withTag, getTag_node,
            RelevantTag.refsIdx, Bool.or_eq_false_iff]
          constructor
          · rw [List.erase_of_not_mem (by simpa using h1)]
            exact h1
          · rw [List.erase_of_not_mem (by simpa using h2)]
            exact h2
      · rw [if_neg hof] at h
        by_cases hnn : (MatchExpression.node m p pl tg cs).mt = .NOT ∨
            (MatchExpression.node m p pl tg cs).mt = .NOR
        · rw [if_pos hnn] at h
          cases h
          exact ⟨rfl, rfl, rfl, rfl, fun h => h⟩
        · rw [if_neg hnn] at h
          by_cases hand : (MatchExpression.node m p pl tg cs).mt = .AND
          · rw [if_pos hand] at h
            cases hpo : stripPassOne (stripF n idx pp) idx
                (MatchExpression.node m p pl tg cs).children false pp with
            | none => rw [hpo] at h; cases h
            | some r =>
              rw [hpo] at h
              try dsimp only at h
              by_cases hfail : (!r.2.1 || !r.2.2.isEmpty) = true
              · rw [if_pos hfail] at h
                cases hsl : stripListWith (stripF n idx pp) r.1 with
                | none => rw [hsl] at h; cases h
                | some cs2 =>
                  rw [hsl] at h
                  cases h
                  exact ⟨rfl, rfl, rfl, rfl, fun h => by
                    simpa [refsB] using h⟩
              · rw [if_neg hfail] at h
                cases h
                exact ⟨rfl, rfl, rfl, rfl, fun h => by
                  simpa [refsB] using h⟩
          · rw [if_neg hand] at h
            cases hsl : stripListWith (stripF n idx pp)
                (MatchExpression.node m p pl tg cs).children with
            | none => rw [hsl] at h; cases h
            | some cs' =>
              rw [hsl] at h
              cases h
              exact ⟨rfl, rfl, rfl, rfl, fun h => by
                simpa [refsB] using h⟩

/-- The `hasText` flag computed by the AND-child loop is exactly "some direct
tagged TEXT child is assigned to the index". -/
theorem stripPassOne_ht (f : MatchExpression → Option MatchExpression)
    (idx : Nat) :
    ∀ cs ht rem cs' ht' rem',
      stripPassOne f idx cs ht rem = some (cs', ht', rem') →
      ht' = (ht || hasTextChildB idx cs) := by
  intro cs
  induction cs using MEList.ind with
  | nil =>
    intro ht rem cs' ht' rem' h
    simp only [stripPassOne] at h
    cases h
    simp [hasTextChildB]
  | cons c tl ih =>
    intro ht rem cs' ht' rem' h
    simp only [stripPassOne] at h
    cases htg : c.getTag with
    | none =>
      rw [htg] at h
      dsimp only at h
      have hrf : refsB idx c = false := by simp [refsB, htg]
      cases hc : f c with
      | none => rw [hc] at h; cases h
      | some c' =>
        rw [hc] at h
        cases hr : stripPassOne f idx tl ht rem with
        | none => rw [hr] at h; cases h
        | some r =>
          obtain ⟨r1, r2, r3⟩ := r
          rw [hr] at h
          cases h
          rw [ih _ _ _ _ _ hr]
          simp [hasTextChildB, hrf]
    | some tg =>
      rw [htg] at h
      dsimp only at h
      by_cases href : (tg.first.contains idx || tg.notFirst.contains idx) = true
      · rw [if_pos href] at h
        have hrt : refsB idx c = true := by
          simp [refsB, htg, RelevantTag.refsIdx]
          simpa using href
        by_cases htext : c.mt = .TEXT
        · rw [if_pos htext] at h
          cases hr : stripPassOne f idx tl true rem with
          | none => rw [hr] at h; cases h
          | some r =>
            obtain ⟨r1, r2, r3⟩ := r
            rw [hr] at h
            cases h
            rw [ih _ _ _ _ _ hr]
            simp [hasTextChildB, hrt, htext]
        · rw [if_neg htext] at h
          cases hr : stripPassOne f idx tl ht (rem.erase c.path) with
          | none => rw [hr] at h; cases h
          | some r =>
            obtain ⟨r1, r2, r3⟩ := r
            rw [hr] at h
            cases h
            rw [ih _ _ _ _ _ hr]
            simp [hasTextChildB, htext]
      · rw [if_neg href] at h
        have hrf : refsB idx c = false := by
          simp [refsB, htg, RelevantTag.refsIdx]
          simpa using href
        cases hc : f c with
        | none => rw [hc] at h; cases h
        | some c' =>
          rw [hc] at h
          cases hr : stripPassOne f idx tl ht rem with
          | none => rw [hr] at h; cases h
          | some r =>
            obtain ⟨r1, r2, r3⟩ := r
            rw [hr] at h
            cases h
            rw [ih _ _ _ _ _ hr]
            simp [hasTextChildB, hrf]

theorem mem_eq_of_not_mem_erase {s a : String} {l : List String}
    (hs : s ∈ l) (hn : s ∉ l.erase a) : s = a := by
  by_cases h : s = a
  · exact h
  · exact absurd ((List.mem_erase_of_ne h).mpr hs) hn

/-- Every prefix path handed to the AND-child loop either survives in the
remaining set or is erased by a direct tagged non-TEXT child, which is kept
unchanged in the output child list. -/
theorem stripPassOne_rem (f : MatchExpression → Option MatchExpression)
    (idx : Nat) :
    ∀ cs ht rem cs' ht' rem',
      stripPassOne f idx cs ht rem = some (cs', ht', rem') →
      ∀ s, s ∈ rem → s ∈ rem' ∨ coversLB idx s cs' = true := by
  intro cs
  induction cs using MEList.ind with
  | nil =>
    intro ht rem cs' ht' rem' h s hs
    simp only [stripPassOne] at h
    cases h
    exact Or.inl hs
  | cons c tl ih =>
    intro ht rem cs' ht' rem' h s hs
    simp only [stripPassOne] at h
    cases htg : c.getTag with
    | none =>
      rw [htg] at h
      dsimp only at h
      cases hc : f c with
      | none => rw [hc] at h; cases h
      | some c' =>
        rw [hc] at h
        cases hr : stripPassOne f idx tl ht rem with
        | none => rw [hr] at h; cases h
        | some r =>
          obtain ⟨r1, r2, r3⟩ := r
          rw [hr] at h
          cases h
          rcases ih _ _ _ _ _ hr s hs with h | h
          · exact Or.inl h
          · exact Or.inr (by simp [coversLB, h])
    | some tg =>
      rw [htg] at h
      dsimp only at h
      by_cases href : (tg.first.contains idx || tg.notFirst.contains idx) = true
      · rw [if_pos href] at h
        have hrt : refsB idx c = true := by
          simp [refsB, htg, RelevantTag.refsIdx]
          simpa using href
        by_cases htext : c.mt = .TEXT
        · rw [if_pos htext] at h
          cases hr : stripPassOne f idx tl true rem with
          | none => rw [hr] at h; cases h
          | some r =>
            obtain ⟨r1, r2, r3⟩ := r
            rw [hr] at h
            cases h
            rcases ih _ _ _ _ _ hr s hs with h | h
            · exact Or.inl h
            · exact Or.inr (by simp [coversLB, h])
        · rw [if_neg htext] at h
          cases hr : stripPassOne f idx tl ht (rem.erase c.path) with
          | none => rw [hr] at h; cases h
          | some r =>
            obtain ⟨r1, r2, r3⟩ := r
            rw [hr] at h
            cases h
            by_cases hse : s ∈ rem.erase c.path
            · rcases ih _ _ _ _ _ hr s hse with h | h
              · exact Or.inl h
              · exact Or.inr (by simp [coversLB, h])
            · have hsc : s = c.path := mem_eq_of_not_mem_erase hs hse
              refine Or.inr ?_
              simp [coversLB, coversChildB, hrt, htext, hsc]
      · rw [if_neg href] at h
        cases hc : f c with
        | none => rw [hc] at h; cases h
        | some c' =>
          rw [hc] at h
          cases hr : stripPassOne f idx tl ht rem with
          | none => rw [hr] at h; cases h
          | some r =>
            obtain ⟨r1, r2, r3⟩ := r
            rw [hr] at h
            cases h
            rcases ih _ _ _ _ _ hr s hs with h | h
            · exact Or.inl h
            · exact Or.inr (by simp [coversLB, h])

theorem count_erase_le (j a : Nat) (l : List Nat) :
    (l.erase a).count j ≤ l.count j := by
  by_cases h : j = a
  · subst h
    rw [List.count_erase_self]
    omega
  · rw [List.count_erase_of_ne h]

theorem MEAllB_conj (p q : MatchExpression → Bool) :
    ∀ cs, MEAllB p cs = true → MEAllB q cs = true →
      MEAllB (fun c => p c && q c) cs = true := by
  intro cs
  induction cs using MEList.ind with
  | nil => intro _ _; rfl
  | cons c tl ih =>
    intro hp hq
    simp only [MEAllB, Bool.and_eq_true] at hp hq ⊢
    exact ⟨⟨hp.1, hq.1⟩, ih hp.2 hq.2⟩

theorem wfTagsB_parts (m : MatchType) (p : String) (pl : Payload)
    (tg : Option RelevantTag) (cs : MEList)
    (h : wfTagsB (.node m p pl tg cs) = true) :
    (!tg.isSome ||
      (nodeCanUseIndexOnOwnField (.node m p pl tg cs) || decide (m = .NOT))) = true ∧
    wfTagsLB cs = true := by
  simp only [wfTagsB, mt_node, Bool.and_eq_true] at h
  exact h

theorem onceTagB_parts (j : Nat) (m : MatchType) (p : String) (pl : Payload)
    (tg : Option RelevantTag) (cs : MEList)
    (h : onceTagB j (.node m p pl tg cs) = true) :
    tagOnce j tg = true ∧ onceTagLB j cs = true := by
  simp only [onceTagB, Bool.and_eq_true] at h
  exact h

/-- The enforcer preserves the well-formed-tagging discipline and the
at-most-once property of every index id. -/
theorem stripF_pres (idx : Nat) (pp : List String) :
    ∀ n t t', stripF n idx pp t = some t' →
      (wfTagsB t = true → wfTagsB t' = true) ∧
      (∀ j, onceTagB j t = true → onceTagB j t' = true) := by
  intro n
  induction n with
  | zero => intro t t' h; cases h
  | succ n ih =>
    intro t t' h
    cases t with
    | node m p pl tg cs =>
      simp only [stripF] at h
      by_cases hof : nodeCanUseIndexOnOwnField (.node m p pl tg cs) = true
      · rw [if_pos hof] at h
        unfold removeIndexRelevantTag at h
        cases tg with
        | none => simp only [getTag_node] at h; cases h
        | some tg0 =>
          simp only [getTag_node] at h
          try dsimp only at h
          cases h
          constructor
          · intro hwf
            obtain ⟨hroot, hcs⟩ := wfTagsB_parts m p pl (some tg0) cs hwf
            simp only [MatchExpression.withTag, wfTagsB, mt_node, Bool.and_eq_true]
            refine ⟨?_, hcs⟩
            simp only [Option.isSome] at hroot ⊢
            rw [nodeCanUse_congr _ _ rfl rfl]
            simpa using hroot
          · intro j honce
            obtain ⟨hroot, hcs⟩ := onceTagB_parts j m p pl (some tg0) cs honce
            simp only [MatchExpression.withTag, onceTagB, Bool.and_eq_true]
            refine ⟨?_, hcs⟩
            simp only [tagOnce, Bool.and_eq_true, decide_eq_true_eq] at hroot ⊢
            exact ⟨le_trans (count_erase_le j idx tg0.first) hroot.1,
              le_trans (count_erase_le j idx tg0.notFirst) hroot.2⟩
      · rw [if_neg hof] at h
        by_cases hnn : (MatchExpression.node m p pl tg cs).mt = .NOT ∨
            (MatchExpression.node m p pl tg cs).mt = .NOR
        · rw [if_pos hnn] at h
          cases h
          exact ⟨fun h => h, fun _ h => h⟩
        · rw [if_neg hnn] at h
          by_cases hand : (MatchExpression.node m p pl tg cs).mt = .AND
          · rw [if_pos hand] at h
            cases hpo : stripPassOne (stripF n idx pp) idx
                (MatchExpression.node m p pl tg cs).children false pp with
            | none => rw [hpo] at h; cases h
            | some r =>
              obtain ⟨cs1, ht1, rem1⟩ := r
              rw [hpo] at h
              try dsimp only at h
              have hrel : MEAll2 (fun c c' =>
                  (wfTagsB c = true → wfTagsB c' = true) ∧
                  (∀ j, onceTagB j c = true → onceTagB j c' = true)) cs cs1 := by
                refine stripPassOne_rel _ idx _ ?_ ?_ cs false pp cs1 ht1 rem1 hpo
                · intro c c' _ hf
                  exact ih c c' hf
                · intro c _
                  exact ⟨fun h => h, fun _ h => h⟩
              by_cases hfail : (!ht1 || !rem1.isEmpty) = true
              · rw [if_pos hfail] at h
                cases hsl : stripListWith (stripF n idx pp) cs1 with
                | none => rw [hsl] at h; cases h
                | some cs2 =>
                  rw [hsl] at h
                  cases h
                  have hrel2 : MEAll2 (fun c c' =>
                      (wfTagsB c = true → wfTagsB c' = true) ∧
                      (∀ j, onceTagB j c = true → onceTagB j c' = true)) cs1 cs2 :=
                    stripListWith_rel _ _ (fun c c' hf => ih c c' hf) cs1 cs2 hsl
                  constructor
                  · intro hwf
                    obtain ⟨hroot, hcs⟩ := wfTagsB_parts m p pl tg cs hwf
                    simp only [withChildren_node, wfTagsB, mt_node, Bool.and_eq_true]
                    refine ⟨by rw [nodeCanUse_congr _ _ rfl rfl]; simpa using hroot, ?_⟩
                    rw [wfTagsLB_eq_all] at hcs ⊢
                    exact MEAll2_transfer _ _ _ (fun c c' hr hp => hr.1 hp) cs1 cs2 hrel2
                      (MEAll2_transfer _ _ _ (fun c c' hr hp => hr.1 hp) cs cs1 hrel hcs)
                  · intro j honce
                    obtain ⟨hroot, hcs⟩ := onceTagB_parts j m p pl tg cs honce
                    simp only [withChildren_node, onceTagB, Bool.and_eq_true]
                    refine ⟨hroot, ?_⟩
                    rw [onceTagLB_eq_all] at hcs ⊢
                    exact MEAll2_transfer _ _ _ (fun c c' hr hp => hr.2 j hp) cs1 cs2 hrel2
                      (MEAll2_transfer _ _ _ (fun c c' hr hp => hr.2 j hp) cs cs1 hrel hcs)
              · rw [if_neg hfail] at h
                cases h
                constructor
                · intro hwf
                  obtain ⟨hroot, hcs⟩ := wfTagsB_parts m p pl tg cs hwf
                  simp only [withChildren_node, wfTagsB, mt_node, Bool.and_eq_true]
                  refine ⟨by rw [nodeCanUse_congr _ _ rfl rfl]; simpa using hroot, ?_⟩
                  rw [wfTagsLB_eq_all] at hcs ⊢
                  exact MEAll2_transfer _ _ _ (fun c c' hr hp => hr.1 hp) cs cs1 hrel hcs
                · intro j honce
                  obtain ⟨hroot, hcs⟩ := onceTagB_parts j m p pl tg cs honce
                  simp only [withChildren_node, onceTagB, Bool.and_eq_true]
                  refine ⟨hroot, ?_⟩
                  rw [onceTagLB_eq_all] at hcs ⊢
                  exact MEAll2_transfer _ _ _ (fun c c' hr hp => hr.2 j hp) cs cs1 hrel hcs
          · rw [if_neg hand] at h
            cases hsl : stripListWith (stripF n idx pp)
                (MatchExpression.node m p pl tg cs).children with
            | none => rw [hsl] at h; cases h
            | some cs' =>
              rw [hsl] at h
              cases h
              have hrel : MEAll2 (fun c c' =>
                  (wfTagsB c = true → wfTagsB c' = true) ∧
                  (∀ j, onceTagB j c = true → onceTagB j c' = true)) cs cs' :=
                stripListWith_rel _ _ (fun c c' hf => ih c c' hf) cs cs' hsl
              constructor
              · intro hwf
                obtain ⟨hroot, hcs⟩ := wfTagsB_parts m p pl tg cs hwf
                simp only [withChildren_node, wfTagsB, mt_node, Bool.and_eq_true]
                refine ⟨by rw [nodeCanUse_congr _ _ rfl rfl]; simpa using hroot, ?_⟩
                rw [wfTagsLB_eq_all] at hcs ⊢
                exact MEAll2_transfer _ _ _ (fun c c' hr hp => hr.1 hp) cs cs' hrel hcs
              · intro j honce
                obtain ⟨hroot, hcs⟩ := onceTagB_parts j m p pl tg cs honce
                simp only [withChildren_node, onceTagB, Bool.and_eq_true]
                refine ⟨hroot, ?_⟩
                rw [onceTagLB_eq_all] at hcs ⊢
                exact MEAll2_transfer _ _ _ (fun c c' hr hp => hr.2 j hp) cs cs' hrel hcs

theorem canUse_swap_cs (m : MatchType) (p : String) (pl : Payload)
    (tg tg2 : Option RelevantTag) (cs cs2 : MEList) :
    nodeCanUseIndexOnOwnField (.node m p pl tg2 cs2) =
    nodeCanUseIndexOnOwnField (.node m p pl tg cs) :=
  nodeCanUse_congr _ _ rfl rfl

theorem once_not_mem_erase (idx : Nat) (l : List Nat)
    (h : l.count idx ≤ 1) : idx ∉ l.erase idx := by
  intro hmem
  have := List.count_pos_iff.mpr hmem
  rw [List.count_erase_self] at this
  omega

theorem andsGood_of_refs_wf (idx : Nat) (pp : List String)
    (c : MatchExpression) (hwf : wfTagsB c = true)
    (href : refsB idx c = true) : andsGoodB idx pp c = true := by
  cases c with
  | node m p pl tg cs =>
    cases tg with
    | none => simp [refsB] at href
    | some tg0 =>
      obtain ⟨hroot, _⟩ := wfTagsB_parts m p pl (some tg0) cs hwf
      simp only [Option.isSome, Bool.not_true, Bool.false_or] at hroot
      simp only [andsGoodB, mt_node]
      rcases Bool.or_eq_true _ _ |>.mp hroot with hcu | hnotm
      · rw [if_pos hcu]
      · rw [if_neg]
        · rw [if_pos (Or.inl (of_decide_eq_true hnotm))]
        · intro hcu
          have := isBoundsGenerating_ne_nor (.node m p pl (some tg0) cs)
          simp [nodeCanUseIndexOnOwnField, isLeafKind,
            arrayUsesIndexOnChildren, of_decide_eq_true hnotm] at hcu

theorem hasText_transfer (idx : Nat)
    (R : MatchExpression → MatchExpression → Prop)
    (hR : ∀ c c', R c c' → refsB idx c = true → c' = c) :
    ∀ cs cs', MEAll2 R cs cs' → hasTextChildB idx cs = true →
      hasTextChildB idx cs' = true := by
  intro cs
  induction cs using MEList.ind with
  | nil =>
    intro cs' h ht
    cases ht
  | cons c tl ih =>
    intro cs' h ht
    cases cs' with
    | nil => cases h
    | cons c' tl' =>
      obtain ⟨h1, h2⟩ := h
      simp only [hasTextChildB, Bool.or_eq_true, Bool.and_eq_true] at ht ⊢
      rcases ht with ⟨href, htext⟩ | ht
      · rw [hR c c' h1 href]
        exact Or.inl ⟨href, htext⟩
      · exact Or.inr (ih tl' h2 ht)

/-- The heart of the text-constraint enforcer's guarantee: a successful strip
for index `idx` with prefix paths `pp`, on a well-formed tree whose tags
mention `idx` at most once per list, leaves no exposed assignment and
leaves every reachable AND either satisfying the prefix condition or with
no exposed assignment among its children. -/
theorem stripF_main (idx : Nat) (pp : List String) :
    ∀ n t t', stripF n idx pp t = some t' →
      wfTagsB t = true → onceTagB idx t = true →
      noExposedB idx t' = true ∧ andsGoodB idx pp t' = true := by
  intro n
  induction n with
  | zero => intro t t' h; cases h
  | succ n ih =>
    intro t t' h hwf honce
    cases t with
    | node m p pl tg cs =>
      simp only [stripF] at h
      by_cases hof : nodeCanUseIndexOnOwnField (.node m p pl tg cs) = true
      · rw [if_pos hof] at h
        unfold removeIndexRelevantTag at h
        cases tg with
        | none => simp only [getTag_node] at h; cases h
        | some tg0 =>
          simp only [getTag_node] at h
          try dsimp only at h
          cases h
          obtain ⟨honce0, _⟩ := onceTagB_parts idx m p pl (some tg0) cs honce
          simp only [tagOnce, Bool.and_eq_true, decide_eq_true_eq] at honce0
          constructor
          · simp only [MatchExpression.withTag, noExposedB]
            rw [if_pos (by rw [nodeCanUse_congr _ _ rfl rfl]; exact hof)]
            simp only [refsB, getTag_node, RelevantTag.refsIdx, Bool.not_eq_true',
              Bool.or_eq_false_iff]
            constructor
            · simpa using once_not_mem_erase idx tg0.first honce0.1
            · simpa using once_not_mem_erase idx tg0.notFirst honce0.2
          · simp only [MatchExpression.withTag, andsGoodB]
            rw [if_pos (by rw [nodeCanUse_congr _ _ rfl rfl]; exact hof)]
      · rw [if_neg hof] at h
        by_cases hnn : (MatchExpression.node m p pl tg cs).mt = .NOT ∨
            (MatchExpression.node m p pl tg cs).mt = .NOR
        · rw [if_pos hnn] at h
          cases h
          constructor
          · simp only [noExposedB]
            rw [if_neg (by simpa using hof), if_pos hnn]
          · simp only [andsGoodB]
            rw [if_neg (by simpa using hof), if_pos hnn]
        · rw [if_neg hnn] at h
          obtain ⟨hwfroot, hwfcs⟩ := wfTagsB_parts m p pl tg cs hwf
          obtain ⟨honceroot, honcecs⟩ := onceTagB_parts idx m p pl tg cs honce
          have hwo : MEAllB (fun c => wfTagsB c && onceTagB idx c) cs = true := by
            refine MEAllB_conj _ _ cs ?_ ?_
            · rw [← wfTagsLB_eq_all]; exact hwfcs
            · rw [← onceTagLB_eq_all]; exact honcecs
          by_cases hand : (MatchExpression.node m p pl tg cs).mt = .AND
          · rw [if_pos hand] at h
            cases hpo : stripPassOne (stripF n idx pp) idx
                (MatchExpression.node m p pl tg cs).children false pp with
            | none => rw [hpo] at h; cases h
            | some r =>
              obtain ⟨cs1, ht1, rem1⟩ := r
              rw [hpo] at h
              try dsimp only at h
              have hrelK : MEAll2 (fun c c' =>
                  (refsB idx c = true → c' = c) ∧
                  (wfTagsB c = true → onceTagB idx c = true →
                    wfTagsB c' = true ∧ onceTagB idx c' = true) ∧
                  (refsB idx c = false → wfTagsB c = true → onceTagB idx c = true →
                    noExposedB idx c' = true ∧ andsGoodB idx pp c' = true)) cs cs1 := by
                refine stripPassOne_rel _ idx _ ?_ ?_ cs false pp cs1 ht1 rem1 hpo
                · intro c c' hrf hf
                  refine ⟨fun hr => absurd hr (by simp [hrf]), ?_, ?_⟩
                  · intro hw ho
                    obtain ⟨hw', ho'⟩ := stripF_pres idx pp n c c' hf
                    exact ⟨hw' hw, ho' idx ho⟩
                  · intro _ hw ho
                    exact ih c c' hf hw ho
                · intro c hrt
                  exact ⟨fun _ => rfl,
                    fun hw ho => ⟨hw, ho⟩,
                    fun hrf => absurd hrt (by simp [hrf])⟩
              have hwo1 : MEAllB (fun c => wfTagsB c && onceTagB idx c) cs1 = true := by
                refine MEAll2_transfer _ _ _ ?_ cs cs1 hrelK hwo
                intro c c' hr hp
                simp only [Bool.and_eq_true] at hp ⊢
                exact hr.2.1 hp.1 hp.2
              have hgoodL1 : andsGoodLB idx pp cs1 = true := by
                rw [andsGoodLB_eq_all]
                refine MEAll2_transfer _ _ _ ?_ cs cs1 hrelK hwo
                intro c c' hr hp
                simp only [Bool.and_eq_true] at hp
                cases hrf : refsB idx c with
                | true =>
                  rw [hr.1 hrf]
                  exact andsGood_of_refs_wf idx pp c hp.1 hrf
                | false =>
                  exact (hr.2.2 hrf hp.1 hp.2).2
              by_cases hfail : (!ht1 || !rem1.isEmpty) = true
              · rw [if_pos hfail] at h
                cases hsl : stripListWith (stripF n idx pp) cs1 with
                | none => rw [hsl] at h; cases h
                | some cs2 =>
                  rw [hsl] at h
                  cases h
                  have hrel2 : MEAll2 (fun c c' =>
                      wfTagsB c = true → onceTagB idx c = true →
                      noExposedB idx c' = true ∧ andsGoodB idx pp c' = true) cs1 cs2 :=
                    stripListWith_rel _ _ (fun c c' hf hw ho => ih c c' hf hw ho) cs1 cs2 hsl
                  have hne : MEAllB (fun c => noExposedB idx c && andsGoodB idx pp c) cs2 = true := by
                    refine MEAll2_transfer _ _ _ ?_ cs1 cs2 hrel2 hwo1
                    intro c c' hr hp
                    simp only [Bool.and_eq_true] at hp ⊢
                    exact hr hp.1 hp.2
                  constructor
                  · simp only [withChildren_node, noExposedB, mt_node]
                    rw [if_neg (show ¬nodeCanUseIndexOnOwnField (MatchExpression.node m p pl tg cs2) = true from by
                        rw [canUse_swap_cs m p pl tg tg cs cs2]; simpa using hof),
                      if_neg (show ¬(m = MatchType.NOT ∨ m = MatchType.NOR) from by simpa using hnn),
                      if_pos (show m = MatchType.AND from by simpa using hand)]
                  · simp only [withChildren_node, andsGoodB, mt_node]
                    rw [if_neg (show ¬nodeCanUseIndexOnOwnField (MatchExpression.node m p pl tg cs2) = true from by
                        rw [canUse_swap_cs m p pl tg tg cs cs2]; simpa using hof),
                      if_neg (show ¬(m = MatchType.NOT ∨ m = MatchType.NOR) from by simpa using hnn),
                      if_pos (show m = MatchType.AND from by simpa using hand)]
                    have h1 : noExposedLB idx cs2 = true := by
                      rw [noExposedLB_eq_all]
                      refine MEAll2_transfer _ _ _ ?_ cs1 cs2 hrel2 hwo1
                      intro c c' hr hp
                      simp only [Bool.and_eq_true] at hp
                      exact (hr hp.1 hp.2).1
                    have h2 : andsGoodLB idx pp cs2 = true := by
                      rw [andsGoodLB_eq_all]
                      refine MEAll2_transfer _ _ _ ?_ cs1 cs2 hrel2 hwo1
                      intro c c' hr hp
                      simp only [Bool.and_eq_true] at hp
                      exact (hr hp.1 hp.2).2
                    simp [h1, h2]
              · rw [if_neg hfail] at h
                cases h
                have hsucc : ht1 = true ∧ rem1 = [] := by
                  simp only [Bool.or_eq_true, Bool.not_eq_true'] at hfail
                  push_neg at hfail
                  obtain ⟨h1, h2⟩ := hfail
                  constructor
                  · cases hht : ht1
                    · exact absurd hht h1
                    · rfl
                  · cases hrem : rem1 with
                    | nil => rfl
                    | cons a l =>
                      rw [hrem] at h2
                      simp at h2
                obtain ⟨hht, hrem⟩ := hsucc
                have hgood : goodAndB idx pp cs1 = true := by
                  unfold goodAndB
                  have htext := stripPassOne_ht _ idx cs false pp cs1 ht1 rem1 hpo
                  rw [hht] at htext
                  have htext' : hasTextChildB idx cs = true := by
                    cases hhh : hasTextChildB idx cs
                    · rw [hhh] at htext; simp at htext
                    · rfl
                  have htext1 : hasTextChildB idx cs1 = true :=
                    hasText_transfer idx _ (fun c c' hr => hr.1) cs cs1 hrelK htext'
                  have hcov : pp.all (fun s => coversLB idx s cs1) = true := by
                    refine List.all_eq_true.mpr (fun s hs => ?_)
                    rcases stripPassOne_rem _ idx cs false pp cs1 ht1 rem1 hpo s hs with hmm | hc
                    · rw [hrem] at hmm
                      cases hmm
                    · exact hc
                  simp [htext1, hcov]
                constructor
                · simp only [withChildren_node, noExposedB, mt_node]
                  rw [if_neg (show ¬nodeCanUseIndexOnOwnField (MatchExpression.node m p pl tg cs1) = true from by
                      rw [canUse_swap_cs m p pl tg tg cs cs1]; simpa using hof),
                    if_neg (show ¬(m = MatchType.NOT ∨ m = MatchType.NOR) from by simpa using hnn),
                    if_pos (show m = MatchType.AND from by simpa using hand)]
                · simp only [withChildren_node, andsGoodB, mt_node]
                  rw [if_neg (show ¬nodeCanUseIndexOnOwnField (MatchExpression.node m p pl tg cs1) = true from by
                      rw [canUse_swap_cs m p pl tg tg cs cs1]; simpa using hof),
                    if_neg (show ¬(m = MatchType.NOT ∨ m = MatchType.NOR) from by simpa using hnn),
                    if_pos (show m = MatchType.AND from by simpa using hand)]
                  simp [hgood, hgoodL1]
          · rw [if_neg hand] at h
            cases hsl : stripListWith (stripF n idx pp)
                (MatchExpression.node m p pl tg cs).children with
            | none => rw [hsl] at h; cases h
            | some cs' =>
              rw [hsl] at h
              cases h
              have hrel2 : MEAll2 (fun c c' =>
                  wfTagsB c = true → onceTagB idx c = true →
                  noExposedB idx c' = true ∧ andsGoodB idx pp c' = true) cs cs' :=
                stripListWith_rel _ _ (fun c c' hf hw ho => ih c c' hf hw ho) cs cs' hsl
              constructor
              · simp only [withChildren_node, noExposedB, mt_node]
                rw [if_neg (show ¬nodeCanUseIndexOnOwnField (MatchExpression.node m p pl tg cs') = true from by
                    rw [canUse_swap_cs m p pl tg tg cs cs']; simpa using hof),
                  if_neg (show ¬(m = MatchType.NOT ∨ m = MatchType.NOR) from by simpa using hnn),
                  if_neg (show ¬m = MatchType.AND from by simpa using hand)]
                rw [noExposedLB_eq_all]
                refine MEAll2_transfer _ _ _ ?_ cs cs' hrel2 hwo
                intro c c' hr hp
                simp only [Bool.and_eq_true] at hp
                exact (hr hp.1 hp.2).1
              · simp only [withChildren_node, andsGoodB, mt_node]
                rw [if_neg (show ¬nodeCanUseIndexOnOwnField (MatchExpression.node m p pl tg cs') = true from by
                    rw [canUse_swap_cs m p pl tg tg cs cs']; simpa using hof),
                  if_neg (show ¬(m = MatchType.NOT ∨ m = MatchType.NOR) from by simpa using hnn),
                  if_neg (show ¬m = MatchType.AND from by simpa using hand)]
                rw [andsGoodLB_eq_all]
                refine MEAll2_transfer _ _ _ ?_ cs cs' hrel2 hwo
                intro c c' hr hp
                simp only [Bool.and_eq_true] at hp
                exact (hr hp.1 hp.2).2

theorem MEAll2_eqB (R : MatchExpression → MatchExpression → Prop)
    (pB : MatchExpression → Bool)
    (hp : ∀ c c', R c c' → pB c' = pB c) :
    ∀ cs cs', MEAll2 R cs cs' → MEAllB pB cs' = MEAllB pB cs := by
  intro cs
  induction cs using MEList.ind with
  | nil =>
    intro cs' h
    cases cs' with
    | nil => rfl
    | cons c' tl' => cases h
  | cons c tl ih =>
    intro cs' h
    cases cs' with
    | nil => cases h
    | cons c' tl' =>
      obtain ⟨h1, h2⟩ := h
      simp only [MEAllB]
      rw [hp c c' h1, ih tl' h2]

theorem hasText_eqB (j : Nat) (R : MatchExpression → MatchExpression → Prop)
    (hR : ∀ c c', R c c' → refsB j c' = refsB j c ∧ c'.mt = c.mt) :
    ∀ cs cs', MEAll2 R cs cs' → hasTextChildB j cs' = hasTextChildB j cs := by
  intro cs
  induction cs using MEList.ind with
  | nil =>
    intro cs' h
    cases cs' with
    | nil => rfl
    | cons c' tl' => cases h
  | cons c tl ih =>
    intro cs' h
    cases cs' with
    | nil => cases h
    | cons c' tl' =>
      obtain ⟨h1, h2⟩ := h
      obtain ⟨hr, hm⟩ := hR c c' h1
      simp only [hasTextChildB]
      rw [hr, hm, ih tl' h2]

theorem coversL_eqB (j : Nat) (s : String)
    (R : MatchExpression → MatchExpression → Prop)
    (hR : ∀ c c', R c c' →
      refsB j c' = refsB j c ∧ c'.mt = c.mt ∧ c'.path = c.path) :
    ∀ cs cs', MEAll2 R cs cs' → coversLB j s cs' = coversLB j s cs := by
  intro cs
  induction cs using MEList.ind with
  | nil =>
    intro cs' h
    cases cs' with
    | nil => rfl
    | cons c' tl' => cases h
  | cons c tl ih =>
    intro cs' h
    cases cs' with
    | nil => cases h
    | cons c' tl' =>
      obtain ⟨h1, h2⟩ := h
      obtain ⟨hr, hm, hp⟩ := hR c c' h1
      simp only [coversLB, coversChildB]
      rw [hr, hm, hp, ih tl' h2]

theorem MEAll2_trans (R : MatchExpression → MatchExpression → Prop)
    (hTrans : ∀ a b c, R a b → R b c → R a c) :
    ∀ cs cs1 cs2, MEAll2 R cs cs1 → MEAll2 R cs1 cs2 → MEAll2 R cs cs2 := by
  intro cs
  induction cs using MEList.ind with
  | nil =>
    intro cs1 cs2 h1 h2
    cases cs1 with
    | nil =>
      cases cs2 with
      | nil => trivial
      | cons c2 tl2 => cases h2
    | cons c1 tl1 => cases h1
  | cons c tl ih =>
    intro cs1 cs2 h1 h2
    cases cs1 with
    | nil => cases h1
    | cons c1 tl1 =>
      cases cs2 with
      | nil => cases h2
      | cons c2 tl2 =>
        exact ⟨hTrans _ _ _ h1.1 h2.1, ih tl1 tl2 h1.2 h2.2⟩

/-- Stripping index `idx` never changes anything another index id `j` can
see: assignments to `j`, exposure, the per-AND condition for `j`, the
at-most-once property for `j`, and well-formedness are all untouched. -/
theorem stripF_frame (idx : Nat) (pp : List String) (j : Nat) (hj : j ≠ idx) :
    ∀ n t t', stripF n idx pp t = some t' →
      refsB j t' = refsB j t ∧ t'.mt = t.mt ∧ t'.path = t.path ∧
      noExposedB j t' = noExposedB j t ∧
      (∀ pp2, andsGoodB j pp2 t' = andsGoodB j pp2 t) ∧
      onceTagB j t' = onceTagB j t := by
  intro n
  induction n with
  | zero => intro t t' h; cases h
  | succ n ih =>
    intro t t' h
    cases t with
    | node m p pl tg cs =>
      simp only [stripF] at h
      by_cases hof : nodeCanUseIndexOnOwnField (.node m p pl tg cs) = true
      · rw [if_pos hof] at h
        unfold removeIndexRelevantTag at h
        cases tg with
        | none => simp only [getTag_node] at h; cases h
        | some tg0 =>
          simp only [getTag_node] at h
          try dsimp only at h
          cases h
          have hcontains : ∀ l : List Nat,
              (l.erase idx).contains j = l.contains j := by
            intro l
            by_cases hm : j ∈ l
            · have h1 : j ∈ l.erase idx := (List.mem_erase_of_ne hj).mpr hm
              simp [hm, h1]
            · have h1 : j ∉ l.erase idx := fun hc => hm (List.mem_of_mem_erase hc)
              simp [hm, h1]
          have hrefs : refsB j ((MatchExpression.node m p pl (some tg0) cs).withTag
              (some ⟨tg0.path, tg0.first.erase idx, tg0.notFirst.erase idx⟩)) =
              refsB j (.node m p pl (some tg0) cs) := by
            simp only [MatchExpression.withTag, refsB, getTag_node,
              RelevantTag.refsIdx]
            rw [hcontains tg0.first, hcontains tg0.notFirst]
          refine ⟨hrefs, rfl, rfl, ?_, ?_, ?_⟩
          · simp only [MatchExpression.withTag, noExposedB]
            rw [if_pos (by rw [canUse_swap_cs m p pl (some tg0) _ cs cs]; exact hof),
              if_pos hof]
            rw [show refsB j (MatchExpression.node m p pl
              (some ⟨tg0.path, tg0.first.erase idx, tg0.notFirst.erase idx⟩) cs) =
              refsB j (.node m p pl (some tg0) cs) from by
                simpa [MatchExpression.withTag] using hrefs]
          · intro pp2
            simp only [MatchExpression.withTag, andsGoodB]
            rw [if_pos (by rw [canUse_swap_cs m p pl (some tg0) _ cs cs]; exact hof),
              if_pos hof]
          · simp only [MatchExpression.withTag, onceTagB, tagOnce]
            rw [List.count_erase_of_ne hj, List.count_erase_of_ne hj]
      · rw [if_neg hof] at h
        by_cases hnn : (MatchExpression.node m p pl tg cs).mt = .NOT ∨
            (MatchExpression.node m p pl tg cs).mt = .NOR
        · rw [if_pos hnn] at h
          cases h
          exact ⟨rfl, rfl, rfl, rfl, fun _ => rfl, rfl⟩
        · rw [if_neg hnn] at h
          have hframe0 : ∀ c c', refsB idx c = false →
              stripF n idx pp c = some c' →
              refsB j c' = refsB j c ∧ c'.mt = c.mt ∧ c'.path = c.path ∧
              noExposedB j c' = noExposedB j c ∧
              (∀ pp2, andsGoodB j pp2 c' = andsGoodB j pp2 c) ∧
              onceTagB j c' = onceTagB j c :=
            fun c c' _ hf => ih c c' hf
          by_cases hand : (MatchExpression.node m p pl tg cs).mt = .AND
          · rw [if_pos hand] at h
            cases hpo : stripPassOne (stripF n idx pp) idx
                (MatchExpression.node m p pl tg cs).children false pp with
            | none => rw [hpo] at h; cases h
            | some r =>
              obtain ⟨cs1, ht1, rem1⟩ := r
              rw [hpo] at h
              try dsimp only at h
              have hrel1 : MEAll2 (fun c c' =>
                  refsB j c' = refsB j c ∧ c'.mt = c.mt ∧ c'.path = c.path ∧
                  noExposedB j c' = noExposedB j c ∧
                  (∀ pp2, andsGoodB j pp2 c' = andsGoodB j pp2 c) ∧
                  onceTagB j c' = onceTagB j c) cs cs1 := by
                refine stripPassOne_rel _ idx _ ?_ ?_ cs false pp cs1 ht1 rem1 hpo
                · intro c c' hrf hf
                  exact ih c c' hf
                · intro c _
                  exact ⟨rfl, rfl, rfl, rfl, fun _ => rfl, rfl⟩
              by_cases hfail : (!ht1 || !rem1.isEmpty) = true
              · rw [if_pos hfail] at h
                cases hsl : stripListWith (stripF n idx pp) cs1 with
                | none => rw [hsl] at h; cases h
                | some cs2 =>
                  rw [hsl] at h
                  cases h
                  have hrel2 : MEAll2 (fun c c' =>
                      refsB j c' = refsB j c ∧ c'.mt = c.mt ∧ c'.path = c.path ∧
                      noExposedB j c' = noExposedB j c ∧
                      (∀ pp2, andsGoodB j pp2 c' = andsGoodB j pp2 c) ∧
                      onceTagB j c' = onceTagB j c) cs1 cs2 :=
                    stripListWith_rel _ _ (fun c c' hf => ih c c' hf) cs1 cs2 hsl
                  have htr : MEAll2 (fun c c' =>
                      refsB j c' = refsB j c ∧ c'.mt = c.mt ∧ c'.path = c.path ∧
                      noExposedB j c' = noExposedB j c ∧
                      (∀ pp2, andsGoodB j pp2 c' = andsGoodB j pp2 c) ∧
                      onceTagB j c' = onceTagB j c) cs cs2 :=
                    MEAll2_trans _ (fun _ _ _ hab hbc =>
                      ⟨hbc.1.trans hab.1, hbc.2.1.trans hab.2.1,
                       hbc.2.2.1.trans hab.2.2.1, hbc.2.2.2.1.trans hab.2.2.2.1,
                       fun pp2 => (hbc.2.2.2.2.1 pp2).trans (hab.2.2.2.2.1 pp2),
                       hbc.2.2.2.2.2.trans hab.2.2.2.2.2⟩)
                      cs cs1 cs2 hrel1 hrel2
                  refine ⟨by simp [refsB], rfl, rfl, ?_, ?_, ?_⟩
                  · simp only [withChildren_node, noExposedB, mt_node]
                    rw [if_neg (show ¬nodeCanUseIndexOnOwnField (MatchExpression.node m p pl tg cs2) = true from by
                        rw [canUse_swap_cs m p pl tg tg cs cs2]; simpa using hof),
                      if_neg (show ¬nodeCanUseIndexOnOwnField (MatchExpression.node m p pl tg cs) = true from by
                        simpa using hof),
                      if_neg (show ¬(m = MatchType.NOT ∨ m = MatchType.NOR) from by simpa using hnn),
                      if_neg (show ¬(m = MatchType.NOT ∨ m = MatchType.NOR) from by simpa using hnn),
                      if_pos (show m = MatchType.AND from by simpa using hand),
                      if_pos (show m = MatchType.AND from by simpa using hand)]
                  · intro pp2
                    simp only [withChildren_node, andsGoodB, mt_node]
                    rw [if_neg (show ¬nodeCanUseIndexOnOwnField (MatchExpression.node m p pl tg cs2) = true from by
                        rw [canUse_swap_cs m p pl tg tg cs cs2]; simpa using hof),
                      if_neg (show ¬nodeCanUseIndexOnOwnField (MatchExpression.node m p pl tg cs) = true from by
                        simpa using hof),
                      if_neg (show ¬(m = MatchType.NOT ∨ m = MatchType.NOR) from by simpa using hnn),
                      if_neg (show ¬(m = MatchType.NOT ∨ m = MatchType.NOR) from by simpa using hnn),
                      if_pos (show m = MatchType.AND from by simpa using hand),
                      if_pos (show m = MatchType.AND from by simpa using hand)]
                    rw [show goodAndB j pp2 cs2 = goodAndB j pp2 cs from by
                        unfold goodAndB
                        rw [hasText_eqB j _ (fun c c' hr => ⟨hr.1, hr.2.1⟩) cs cs2 htr]
                        congr 1
                        rw [show (fun s => coversLB j s cs2) = (fun s => coversLB j s cs) from
                          funext (fun s => coversL_eqB j s _
                            (fun c c' hr => ⟨hr.1, hr.2.1, hr.2.2.1⟩) cs cs2 htr)],
                      show noExposedLB j cs2 = noExposedLB j cs from by
                        rw [noExposedLB_eq_all, noExposedLB_eq_all]
                        exact MEAll2_eqB _ _ (fun c c' hr => hr.2.2.2.1) cs cs2 htr,
                      show andsGoodLB j pp2 cs2 = andsGoodLB j pp2 cs from by
                        rw [andsGoodLB_eq_all, andsGoodLB_eq_all]
                        exact MEAll2_eqB _ _ (fun c c' hr => hr.2.2.2.2.1 pp2) cs cs2 htr]
                  · simp only [withChildren_node, onceTagB]
                    rw [onceTagLB_eq_all, onceTagLB_eq_all,
                      MEAll2_eqB _ _ (fun c c' hr => hr.2.2.2.2.2) cs cs2 htr]
              · rw [if_neg hfail] at h
                cases h
                refine ⟨by simp [refsB], rfl, rfl, ?_, ?_, ?_⟩
                · simp only [withChildren_node, noExposedB, mt_node]
                  rw [if_neg (show ¬nodeCanUseIndexOnOwnField (MatchExpression.node m p pl tg cs1) = true from by
                      rw [canUse_swap_cs m p pl tg tg cs cs1]; simpa using hof),
                    if_neg (show ¬nodeCanUseIndexOnOwnField (MatchExpression.node m p pl tg cs) = true from by
                      simpa using hof),
                    if_neg (show ¬(m = MatchType.NOT ∨ m = MatchType.NOR) from by simpa using hnn),
                    if_neg (show ¬(m = MatchType.NOT ∨ m = MatchType.NOR) from by simpa using hnn),
                    if_pos (show m = MatchType.AND from by simpa using hand),
                    if_pos (show m = MatchType.AND from by simpa using hand)]
                · intro pp2
                  simp only [withChildren_node, andsGoodB, mt_node]
                  rw [if_neg (show ¬nodeCanUseIndexOnOwnField (MatchExpression.node m p pl tg cs1) = true from by
                      rw [canUse_swap_cs m p pl tg tg cs cs1]; simpa using hof),
                    if_neg (show ¬nodeCanUseIndexOnOwnField (MatchExpression.node m p pl tg cs) = true from by
                      simpa using hof),
                    if_neg (show ¬(m = MatchType.NOT ∨ m = MatchType.NOR) from by simpa using hnn),
                    if_neg (show ¬(m = MatchType.NOT ∨ m = MatchType.NOR) from by simpa using hnn),
                    if_pos (show m = MatchType.AND from by simpa using hand),
                    if_pos (show m = MatchType.AND from by simpa using hand)]
                  rw [show goodAndB j pp2 cs1 = goodAndB j pp2 cs from by
                      unfold goodAndB
                      rw [hasText_eqB j _ (fun c c' hr => ⟨hr.1, hr.2.1⟩) cs cs1 hrel1]
                      congr 1
                      rw [show (fun s => coversLB j s cs1) = (fun s => coversLB j s cs) from
                        funext (fun s => coversL_eqB j s _
                          (fun c c' hr => ⟨hr.1, hr.2.1, hr.2.2.1⟩) cs cs1 hrel1)],
                    show noExposedLB j cs1 = noExposedLB j cs from by
                      rw [noExposedLB_eq_all, noExposedLB_eq_all]
                      exact MEAll2_eqB _ _ (fun c c' hr => hr.2.2.2.1) cs cs1 hrel1,
                    show andsGoodLB j pp2 cs1 = andsGoodLB j pp2 cs from by
                      rw [andsGoodLB_eq_all, andsGoodLB_eq_all]
                      exact MEAll2_eqB _ _ (fun c c' hr => hr.2.2.2.2.1 pp2) cs cs1 hrel1]
                · simp only [withChildren_node, onceTagB]
                  rw [onceTagLB_eq_all, onceTagLB_eq_all,
                    MEAll2_eqB _ _ (fun c c' hr => hr.2.2.2.2.2) cs cs1 hrel1]
          · rw [if_neg hand] at h
            cases hsl : stripListWith (stripF n idx pp)
                (MatchExpression.node m p pl tg cs).children with
            | none => rw [hsl] at h; cases h
            | some cs' =>
              rw [hsl] at h
              cases h
              have hrel : MEAll2 (fun c c' =>
                  refsB j c' = refsB j c ∧ c'.mt = c.mt ∧ c'.path = c.path ∧
                  noExposedB j c' = noExposedB j c ∧
                  (∀ pp2, andsGoodB j pp2 c' = andsGoodB j pp2 c) ∧
                  onceTagB j c' = onceTagB j c) cs cs' :=
                stripListWith_rel _ _ (fun c c' hf => ih c c' hf) cs cs' hsl
              refine ⟨by simp [refsB], rfl, rfl, ?_, ?_, ?_⟩
              · simp only [withChildren_node, noExposedB, mt_node]
                rw [if_neg (show ¬nodeCanUseIndexOnOwnField (MatchExpression.node m p pl tg cs') = true from by
                    rw [canUse_swap_cs m p pl tg tg cs cs']; simpa using hof),
                  if_neg (show ¬nodeCanUseIndexOnOwnField (MatchExpression.node m p pl tg cs) = true from by
                    simpa using hof),
                  if_neg (show ¬(m = MatchType.NOT ∨ m = MatchType.NOR) from by simpa using hnn),
                  if_neg (show ¬(m = MatchType.NOT ∨ m = MatchType.NOR) from by simpa using hnn),
                  if_neg (show ¬m = MatchType.AND from by simpa using hand),
                  if_neg (show ¬m = MatchType.AND from by simpa using hand)]
                rw [noExposedLB_eq_all, noExposedLB_eq_all]
                exact MEAll2_eqB _ _ (fun c c' hr => hr.2.2.2.1) cs cs' hrel
              · intro pp2
                simp only [withChildren_node, andsGoodB, mt_node]
                rw [if_neg (show ¬nodeCanUseIndexOnOwnField (MatchExpression.node m p pl tg cs') = true from by
                    rw [canUse_swap_cs m p pl tg tg cs cs']; simpa using hof),
                  if_neg (show ¬nodeCanUseIndexOnOwnField (MatchExpression.node m p pl tg cs) = true from by
                    simpa using hof),
                  if_neg (show ¬(m = MatchType.NOT ∨ m = MatchType.NOR) from by simpa using hnn),
                  if_neg (show ¬(m = MatchType.NOT ∨ m = MatchType.NOR) from by simpa using hnn),
                  if_neg (show ¬m = MatchType.AND from by simpa using hand),
                  if_neg (show ¬m = MatchType.AND from by simpa using hand)]
                rw [andsGoodLB_eq_all, andsGoodLB_eq_all]
                exact MEAll2_eqB _ _ (fun c c' hr => hr.2.2.2.2.1 pp2) cs cs' hrel
              · simp only [withChildren_node, onceTagB]
                rw [onceTagLB_eq_all, onceTagLB_eq_all,
                  MEAll2_eqB _ _ (fun c c' hr => hr.2.2.2.2.2) cs cs' hrel]

theorem onceTag_of_short (j : Nat) :
    (∀ t, shortTagsB t = true → onceTagB j t = true) ∧
    (∀ cs, shortTagsLB cs = true → onceTagLB j cs = true) := by
  have h1 : ∀ m p pl tg cs,
      (shortTagsLB cs = true → onceTagLB j cs = true) →
      (shortTagsB (.node m p pl tg cs) = true →
        onceTagB j (.node m p pl tg cs) = true) := by
    intro m p pl tg cs ih h
    simp only [shortTagsB, Bool.and_eq_true] at h
    obtain ⟨hs, hrest⟩ := h
    simp only [onceTagB, Bool.and_eq_true]
    refine ⟨?_, ih hrest⟩
    cases tg with
    | none => rfl
    | some rt =>
      simp only [shortTag, Bool.and_eq_true, decide_eq_true_eq] at hs
      simp only [tagOnce, Bool.and_eq_true, decide_eq_true_eq]
      exact ⟨le_trans (List.count_le_length _ _) hs.1,
        le_trans (List.count_le_length _ _) hs.2⟩
  have h2 : shortTagsLB .nil = true → onceTagLB j .nil = true := fun _ => rfl
  have h3 : ∀ c tl,
      (shortTagsB c = true → onceTagB j c = true) →
      (shortTagsLB tl = true → onceTagLB j tl = true) →
      (shortTagsLB (.cons c tl) = true → onceTagLB j (.cons c tl) = true) := by
    intro c tl ihc ihl h
    simp only [shortTagsLB, Bool.and_eq_true] at h
    simp only [onceTagLB, Bool.and_eq_true]
    exact ⟨ihc h.1, ihl h.2⟩
  exact ⟨me_ind _ _ h1 h2 h3, mel_ind _ _ h1 h2 h3⟩

/-- Later strips of the per-index loop never disturb an index id below the
loop counter. -/
theorem stripAllFrom_frame :
    ∀ (idxs : List IndexEntry) (k : Nat) (u t' : MatchExpression),
      stripAllFrom u k idxs = some t' → ∀ j, j < k →
      refsB j t' = refsB j u ∧ noExposedB j t' = noExposedB j u ∧
      (∀ pp2, andsGoodB j pp2 t' = andsGoodB j pp2 u) := by
  intro idxs
  induction idxs with
  | nil =>
    intro k u t' h j _
    cases h
    exact ⟨rfl, rfl, fun _ => rfl⟩
  | cons ie rest ih =>
    intro k u t' h j hj
    simp only [stripAllFrom] at h
    by_cases htext : ie.type = .INDEX_TEXT
    · rw [if_pos htext] at h
      cases hscan : textPrefixScan ie.keyPattern with
      | none => rw [hscan] at h; cases h
      | some pp0 =>
        rw [hscan] at h
        try dsimp only at h
        by_cases hemp : pp0.isEmpty = true
        · rw [if_pos hemp] at h
          exact ih (k + 1) u t' h j (Nat.lt_succ_of_lt hj)
        · rw [if_neg hemp] at h
          cases hstrip : stripInvalidAssignmentsToTextIndex u k pp0 with
          | none => rw [hstrip] at h; cases h
          | some u1 =>
            rw [hstrip] at h
            have hstrip' : stripF (msize u + 1) k pp0 u = some u1 := hstrip
            have hfr := stripF_frame k pp0 j (Nat.ne_of_lt hj) _ u u1 hstrip'
            have hih := ih (k + 1) u1 t' h j (Nat.lt_succ_of_lt hj)
            exact ⟨hih.1.trans hfr.1, hih.2.1.trans hfr.2.2.2.1,
              fun pp2 => (hih.2.2 pp2).trans (hfr.2.2.2.2.1 pp2)⟩
    · rw [if_neg htext] at h
      exact ih (k + 1) u t' h j (Nat.lt_succ_of_lt hj)

/-- Invariant established by the per-index loop: after it succeeds, every
TEXT index it processed (catalog position `k + i`, non-empty prefix `pp`)
satisfies the exposure and per-AND conditions in the final tree. -/
theorem stripAllFrom_spec :
    ∀ (idxs : List IndexEntry) (k : Nat) (u t' : MatchExpression),
      stripAllFrom u k idxs = some t' →
      wfTagsB u = true → (∀ j, onceTagB j u = true) →
      ∀ i ie, idxs.get? i = some ie → ie.type = .INDEX_TEXT →
      ∀ pp, textPrefixScan ie.keyPattern = some pp → pp ≠ [] →
      noExposedB (k + i) t' = true ∧ andsGoodB (k + i) pp t' = true := by
  intro idxs
  induction idxs with
  | nil =>
    intro k u t' h _ _ i ie hget
    rw [List.get?_eq_getElem?] at hget
    simp at hget
  | cons ie0 rest ih =>
    intro k u t' h hwf honce i ie hget htext pp hscan hppne
    simp only [stripAllFrom] at h
    by_cases htext0 : ie0.type = .INDEX_TEXT
    · rw [if_pos htext0] at h
      cases hscan0 : textPrefixScan ie0.keyPattern with
      | none => rw [hscan0] at h; cases h
      | some pp0 =>
        rw [hscan0] at h
        try dsimp only at h
        by_cases hemp : pp0.isEmpty = true
        · rw [if_pos hemp] at h
          cases i with
          | zero =>
            simp only [List.get?] at hget
            cases hget
            rw [hscan0] at hscan
            cases hscan
            cases pp with
            | nil => exact absurd rfl hppne
            | cons a as => simp [List.isEmpty] at hemp
          | succ i' =>
            have hh := ih (k + 1) u t' h hwf honce i' ie
              (by simpa [List.get?] using hget) htext pp hscan hppne
            rw [show k + 1 + i' = k + (i' + 1) from by omega] at hh
            exact hh
        · rw [if_neg hemp] at h
          cases hstrip : stripInvalidAssignmentsToTextIndex u k pp0 with
          | none => rw [hstrip] at h; cases h
          | some u1 =>
            rw [hstrip] at h
            have hstrip' : stripF (msize u + 1) k pp0 u = some u1 := hstrip
            have hpres := stripF_pres k pp0 (msize u + 1) u u1 hstrip'
            cases i with
            | zero =>
              simp only [List.get?] at hget
              cases hget
              rw [hscan0] at hscan
              cases hscan
              have hmain := stripF_main k pp (msize u + 1) u u1 hstrip'
                hwf (honce k)
              have hfr := stripAllFrom_frame rest (k + 1) u1 t' h k
                (Nat.lt_succ_self k)
              rw [Nat.add_zero]
              exact ⟨hfr.2.1.trans hmain.1, (hfr.2.2 pp).trans hmain.2⟩
            | succ i' =>
              have hh := ih (k + 1) u1 t' h (hpres.1 hwf)
                (fun j => hpres.2 j (honce j)) i' ie
                (by simpa [List.get?] using hget) htext pp hscan hppne
              rw [show k + 1 + i' = k + (i' + 1) from by omega] at hh
              exact hh
    · rw [if_neg htext0] at h
      cases i with
      | zero =>
        simp only [List.get?] at hget
        cases hget
        exact absurd htext htext0
      | succ i' =>
        have hh := ih (k + 1) u t' h hwf honce i' ie
          (by simpa [List.get?] using hget) htext pp hscan hppne
        rw [show k + 1 + i' = k + (i' + 1) from by omega] at hh
        exact hh

theorem compatible_not_sm_false (gm : GeoMath) (elt : String × BSONValue)
    (ie : IndexEntry) (node : MatchExpression)
    (hord : elt.2.isStr = false ∨ ie.type = .INDEX_BTREE)
    (hmt : node.mt = .NOT) (hsm : ie.sparse = true ∨ ie.multikey = true) :
    compatible gm elt ie node = some false := by
  rw [compatible_ord gm elt ie node hord]
  unfold compatibleOrdinary
  split_ifs <;> simp_all

theorem textPrefixScan_none_all :
    ∀ kp : List (String × BSONValue),
      kp.all (fun e => !e.2.isStr) = true → textPrefixScan kp = none := by
  intro kp
  induction kp with
  | nil => intro _; rfl
  | cons e rest ih =>
    intro h
    simp only [List.all_cons, Bool.and_eq_true, Bool.not_eq_true'] at h
    rw [textPrefixScan, if_neg (by simp [h.1]), ih (by simpa using h.2)]

theorem stripAllFrom_none :
    ∀ (idxs : List IndexEntry) (k : Nat) (u : MatchExpression)
      (i : Nat) (ie : IndexEntry), idxs.get? i = some ie →
      ie.type = .INDEX_TEXT → textPrefixScan ie.keyPattern = none →
      stripAllFrom u k idxs = none := by
  intro idxs
  induction idxs with
  | nil =>
    intro k u i ie hget
    rw [List.get?_eq_getElem?] at hget
    simp at hget
  | cons ie0 rest ih =>
    intro k u i ie hget htext hscan
    simp only [stripAllFrom]
    cases i with
    | zero =>
      simp only [List.get?] at hget
      cases hget
      rw [if_pos htext, hscan]
    | succ i' =>
      have hget' : rest.get? i' = some ie := by simpa [List.get?] using hget
      by_cases htext0 : ie0.type = .INDEX_TEXT
      · rw [if_pos htext0]
        cases hscan0 : textPrefixScan ie0.keyPattern with
        | none => rfl
        | some pp0 =>
          try dsimp only
          by_cases hemp : pp0.isEmpty = true
          · rw [if_pos hemp]
            exact ih (k + 1) u i' ie hget' htext hscan
          · rw [if_neg hemp]
            cases hstrip : stripInvalidAssignmentsToTextIndex u k pp0 with
            | none => rfl
            | some u1 => exact ih (k + 1) u1 i' ie hget' htext hscan
      · rw [if_neg htext0]
        exact ih (k + 1) u i' ie hget' htext hscan

theorem rateIndices_not_clone (gm : GeoMath) (m : MatchType) (p : String)
    (pl : Payload) (cs : MEList) (pfx : String) (indices : List IndexEntry)
    (t' : MatchExpression) (hm : m = .NOT)
    (hbg : isBoundsGenerating (.node m p pl none cs) = true)
    (hr : rateIndices gm (.node m p pl none cs) pfx indices = some t') :
    t'.child0.getTag = t'.getTag := by
  subst hm
  unfold rateIndices at hr
  rw [if_neg (by simp [mt_node]), if_pos hbg] at hr
  try dsimp only at hr
  rw [if_pos (by simp [mt_node])] at hr
  cases hra : rateAll gm
      (pfx ++ (MatchExpression.node MatchType.NOT p pl none cs).child0.path)
      (.node .NOT p pl none cs) 0 indices with
  | none => rw [hra] at hr; cases hr
  | some fnf =>
    rw [hra] at hr
    try dsimp only at hr
    cases hr
    cases cs with
    | nil => rfl
    | cons c tl =>
      cases c with
      | node cm cp cpl ctg ccs => rfl

/-- C1 counterexample to the original claim: after enforcement, an AND node
can keep descendants assigned to the text index without having a direct
TEXT child of its own — a tagged AND nested under an outer AND survives
untouched, and a NOT subtree keeps its assignments. -/
theorem C1_counterexample :
    stripInvalidAssignmentsToTextIndexes outerAndW [idxTextW] = some outerAndW ∧
    idxTextW.type = .INDEX_TEXT ∧
    textPrefixScan idxTextW.keyPattern = some ["a"] ∧
    anyRefLB 0 outerAndW.children = true ∧
    hasTextChildB 0 outerAndW.children = false ∧
    stripInvalidAssignmentsToTextIndexes andNotBW [idxTextSufW] = some andNotBW ∧
    anyRefLB 0 andNotBW.children = true ∧
    hasTextChildB 0 andNotBW.children = false :=
  ⟨rfl, rfl, rfl, rfl, rfl, rfl, rfl, rfl⟩

/-- C1 (amended): after the text-constraint enforcement pass succeeds on a
tree whose tags sit only on own-field predicates or NOT nodes and mention
each index at most once per list, then for every TEXT index of the catalog
with a non-empty prefix: no assignment to it survives at a position the
enforcer walks before meeting an AND (`noExposedB`), and every AND node
reachable before a NOT/NOR boundary either has a direct TEXT child assigned
to the index with every prefix path erased by a direct tagged non-text
child, or none of its children exposes an assignment (`andsGoodB`).
Assignments under NOT/NOR, inside nested ANDs satisfying their own
prerequisites, or to prefix-less text indexes may survive. -/
theorem C1_text_enforcement (indices : List IndexEntry)
    (t t' : MatchExpression) (i : Nat) (ie : IndexEntry) (pp : List String)
    (h : stripInvalidAssignmentsToTextIndexes t indices = some t')
    (hwf : wfTagsB t = true) (honce : ∀ j, onceTagB j t = true)
    (hget : indices.get? i = some ie) (htext : ie.type = .INDEX_TEXT)
    (hscan : textPrefixScan ie.keyPattern = some pp) (hppne : pp ≠ []) :
    noExposedB i t' = true ∧ andsGoodB i pp t' = true := by
  have hh := stripAllFrom_spec indices 0 t t' h hwf honce i ie hget htext
    pp hscan hppne
  simpa using hh

/-- C1 witness: the enforcement invariant evaluated on the tagged
`AND({a: 5}, {$text})` against the text index `{a: 1, _fts: "text"}`. -/
theorem C1_text_enforcement_witness :
    noExposedB 0 andEqTaggedW = true ∧ andsGoodB 0 ["a"] andEqTaggedW = true :=
  C1_text_enforcement [idxTextW] andEqTaggedW andEqTaggedW 0 idxTextW ["a"]
    rfl rfl (fun j => (onceTag_of_short j).1 andEqTaggedW rfl) rfl rfl rfl
    (List.cons_ne_nil "a" [])

/-- C2 counterexample to the original claim: the special-element branch has
no null check, so the tagging pass assigns a sparse HASHED index to an
equality-on-null leaf. -/
theorem C2_counterexample :
    idxHashedSparseW.sparse = true ∧ leafEQnullW.eqDataIsNull = true ∧
    rateIndices gmW leafEQnullW "" [idxHashedSparseW] =
      some (.node .EQ "a" (.eqVal true) (some ⟨"a", [0], []⟩) .nil) :=
  ⟨rfl, rfl, rfl⟩

/-- C2 (amended): the oracle rejects an equality-on-null leaf against an
ordinary key element of a sparse index, and over a catalog of ordinary
indexes (B-tree classified, or no string-valued key element) the tagging
pass never assigns a sparse index to an equality-on-null leaf in either
list; a sparse special index (e.g. hashed) can still be assigned. -/
theorem C2_eq_null_sparse (gm : GeoMath) (elt : String × BSONValue)
    (ie : IndexEntry) (node : MatchExpression) (indices : List IndexEntry)
    (t t' : MatchExpression) (pfx : String)
    (hord : elt.2.isStr = false ∨ ie.type = .INDEX_BTREE)
    (hmt : node.mt = .EQ) (hnull : node.eqDataIsNull = true)
    (hsp : ie.sparse = true)
    (hcat : ∀ ie2 ∈ indices, ordinaryIndexB ie2 = true)
    (hu : allUntaggedB t = true)
    (hr : rateIndices gm t pfx indices = some t') :
    compatible gm elt ie node = some false ∧
    eqNullNoSparseB indices t' = true :=
  ⟨compatible_eq_null_sparse gm elt ie node hord hmt hnull hsp,
   (rateIndices_eqNullNoSparse gm indices hcat).1 t pfx t' hu hr⟩

/-- C2 witness: the amended property evaluated on `{a: null}` against the
sparse ordinary index `{a: 1}`. -/
theorem C2_eq_null_sparse_witness :
    compatible gmW ("a", .num 1) idxASparseW leafEQnullW = some false ∧
    eqNullNoSparseB [idxASparseW] ratedEQnullW = true :=
  C2_eq_null_sparse gmW ("a", .num 1) idxASparseW leafEQnullW [idxASparseW]
    leafEQnullW ratedEQnullW "" (Or.inl rfl) rfl rfl rfl
    (fun ie2 h => by rcases List.mem_singleton.mp h with rfl; rfl) rfl rfl

/-- C3: against an ordinary key element the oracle rejects a NOT when the
index is sparse or multikey, and when the negated child is a regex or a
modulo predicate; consequently on an initially untagged tree, after the
tagging pass every NOT node's tag lists only indexes that are neither
sparse nor multikey. -/
theorem C3_not_oracle_and_tags (gm : GeoMath) (elt : String × BSONValue)
    (ie : IndexEntry) (node : MatchExpression) (indices : List IndexEntry)
    (t t' : MatchExpression) (pfx : String)
    (hord : elt.2.isStr = false ∨ ie.type = .INDEX_BTREE)
    (hmt : node.mt = .NOT)
    (hu : allUntaggedB t = true)
    (hr : rateIndices gm t pfx indices = some t') :
    ((ie.sparse = true ∨ ie.multikey = true) →
      compatible gm elt ie node = some false) ∧
    ((node.child0.mt = .REGEX ∨ node.child0.mt = .MOD) →
      compatible gm elt ie node = some false) ∧
    notTagsSafeB indices t' = true :=
  ⟨fun hsm => compatible_not_sm_false gm elt ie node hord hmt hsm,
   fun hch => compatible_not_regex_mod gm elt ie node hord hmt hch,
   (rateIndices_notTagsSafe gm indices).1 t pfx t' hu hr⟩

/-- C3 witness: the property evaluated on `NOT({a: 5})` against the sparse
ordinary index `{a: 1}`. -/
theorem C3_not_oracle_and_tags_witness :
    ((idxASparseW.sparse = true ∨ idxASparseW.multikey = true) →
      compatible gmW ("a", .num 1) idxASparseW notAW = some false) ∧
    ((notAW.child0.mt = .REGEX ∨ notAW.child0.mt = .MOD) →
      compatible gmW ("a", .num 1) idxASparseW notAW = some false) ∧
    notTagsSafeB [idxASparseW] ratedNotAW = true :=
  C3_not_oracle_and_tags gmW ("a", .num 1) idxASparseW notAW [idxASparseW]
    notAW ratedNotAW "" (Or.inl rfl) rfl rfl rfl

/-- C4 counterexample to the original claim: a bounds-generating leaf under
a NOR is left untagged by the tagging pass. -/
theorem C4_counterexample :
    rateIndices gmW norW "" [idxAW] = some norW ∧
    isBoundsGenerating norW.child0 = true ∧
    norW.child0.getTag = none :=
  ⟨rfl, rfl, rfl⟩

/-- C4 (amended): on an initially untagged tree the tagging pass establishes
the discipline `rateTagOKB`: NOR subtrees stay entirely untagged; every
bounds-generating node reached outside NOR subtrees gets a tag (for a NOT
also its first child, nothing deeper); the interiors of own-field
predicates and everything else stay untagged.  In particular a reached
bounds-generating node is tagged even when no index is compatible (root
case stated explicitly). -/
theorem C4_tag_discipline (gm : GeoMath) (indices : List IndexEntry)
    (t t' : MatchExpression) (pfx : String)
    (hu : allUntaggedB t = true)
    (hr : rateIndices gm t pfx indices = some t') :
    rateTagOKB t' = true ∧
    (isBoundsGenerating t' = true → t'.getTag.isSome = true) := by
  have h1 := (rateIndices_rateTagOK gm indices).1 t pfx t' hu hr
  refine ⟨h1, fun hbg => ?_⟩
  cases t' with
  | node m p pl tg cs =>
    have hm : ¬m = .NOR := by
      have := isBoundsGenerating_ne_nor _ hbg
      simpa [mt_node] using this
    simp only [rateTagOKB] at h1
    rw [if_neg hm, if_pos hbg] at h1
    simp only [Bool.and_eq_true] at h1
    simpa [MatchExpression.getTag] using h1.1

/-- C4 witness: the discipline evaluated on `{a: {$gt: 5}}` tagged against
the empty catalog (tag present, lists empty). -/
theorem C4_tag_discipline_witness :
    rateTagOKB ratedGTemptyW = true ∧
    (isBoundsGenerating ratedGTemptyW = true →
      ratedGTemptyW.getTag.isSome = true) :=
  C4_tag_discipline gmW [] leafGTaW ratedGTemptyW "" rfl rfl

/-- C5: nothing beneath a NOR node is ever tagged by the tagging pass (on an
initially untagged tree every NOR subtree of the result stays entirely
untagged), and the path-collection pass contributes nothing at a NOR node:
it returns its accumulator unchanged. -/
theorem C5_nor_shielding (gm : GeoMath) (indices : List IndexEntry)
    (t t' : MatchExpression) (pfx : String)
    (hu : allUntaggedB t = true)
    (hr : rateIndices gm t pfx indices = some t')
    (nor : MatchExpression) (hmt : nor.mt = .NOR)
    (pfx2 : String) (out : List String) :
    norShieldedB t' = true ∧ getFields nor pfx2 out = out := by
  refine ⟨(rateIndices_norShielded gm indices).1 t pfx t' hu hr, ?_⟩
  cases nor with
  | node m p pl tg cs =>
    simp only [mt_node] at hmt
    subst hmt
    simp [getFields]

/-- C5 witness: the property evaluated on `NOR({a: 5})` against `{a: 1}`. -/
theorem C5_nor_shielding_witness :
    norShieldedB norW = true ∧ getFields norW "x" ["q"] = ["q"] :=
  C5_nor_shielding gmW [idxAW] norW norW "" rfl rfl norW rfl "x" ["q"]

/-- C6 counterexample to the original claim: against an ordinary key element
of a TEXT index, an equality-on-null leaf is rejected when the index is
sparse, and a GEO leaf is rejected even though the sentinel occurs before
its path in the key pattern. -/
theorem C6_counterexample :
    compatible gmW ("a", .num 1) idxTextSparseW leafEQnullW = some false ∧
    sentinelBeforeB idxTextSufAW.keyPattern "a" = true ∧
    compatible gmW ("a", .num 1) idxTextSufAW geoLeafAW = some false :=
  ⟨rfl, rfl, rfl⟩

/-- C6 (amended): against an ordinary key element of a TEXT-classified
index, an equality leaf is accepted unless it compares against null on a
sparse index; a non-equality, non-geo leaf that is not a NOT with
sparse/multikey/regex/mod problems is accepted exactly when a string-typed
sentinel element occurs strictly before the first key element named like
the leaf's path. -/
theorem C6_text_ordinary_element (gm : GeoMath) (elt : String × BSONValue)
    (ie : IndexEntry) (node : MatchExpression)
    (hord : elt.2.isStr = false ∨ ie.type = .INDEX_BTREE)
    (htype : ie.type = .INDEX_TEXT) :
    (node.mt = .EQ → (node.eqDataIsNull = false ∨ ie.sparse = false) →
      compatible gm elt ie node = some true) ∧
    (¬node.mt = .EQ → ¬node.mt = .GEO → ¬node.mt = .GEO_NEAR →
      (node.mt = .NOT → ie.sparse = false ∧ ie.multikey = false ∧
        ¬(node.child0.mt = .REGEX ∨ node.child0.mt = .MOD)) →
      (compatible gm elt ie node = some true ↔
        sentinelBeforeB ie.keyPattern node.path = true)) := by
  refine ⟨fun hmt hns => compatible_text_eq_ok gm elt ie node hord hmt hns,
    fun hne hg1 hg2 hnot => ?_⟩
  rw [compatible_text_scan gm elt ie node hord htype hne hg1 hg2 hnot]
  exact textSuffixScan_eq_sentinel node.path ie.keyPattern

/-- C6 witness: the decision evaluated on `{a: {$gt: 5}}` against the text
index `{a: 1, _fts: "text"}` (a prefix field: not usable). -/
theorem C6_text_ordinary_element_witness :
    (leafGTaW.mt = .EQ →
      (leafGTaW.eqDataIsNull = false ∨ idxTextW.sparse = false) →
      compatible gmW ("a", .num 1) idxTextW leafGTaW = some true) ∧
    (¬leafGTaW.mt = .EQ → ¬leafGTaW.mt = .GEO → ¬leafGTaW.mt = .GEO_NEAR →
      (leafGTaW.mt = .NOT → idxTextW.sparse = false ∧ idxTextW.multikey = false ∧
        ¬(leafGTaW.child0.mt = .REGEX ∨ leafGTaW.child0.mt = .MOD)) →
      (compatible gmW ("a", .num 1) idxTextW leafGTaW = some true ↔
        sentinelBeforeB idxTextW.keyPattern leafGTaW.path = true)) :=
  C6_text_ordinary_element gmW ("a", .num 1) idxTextW leafGTaW (Or.inl rfl) rfl

/-- C7: on a `2d`-family key element the oracle accepts a GEO_NEAR leaf
exactly when its reference point is flat; a GEO leaf only for `within`
predicates (an `intersects` is rejected), and then when it has a flat
region, or is a spherical cap whose circle passes `twoDWontWrap`; and
`twoDWontWrap` holds exactly when the scan box, expanded by the geohash
error margin from the index's bits/min/max parameters, stays strictly
inside (-180,180)x(-90,90). -/
theorem C7_twod_element (gm : GeoMath) (nm : String) (ie : IndexEntry)
    (node : MatchExpression) (hty : ie.type ≠ .INDEX_BTREE) :
    (node.mt = .GEO_NEAR →
      (compatible gm (nm, .str "2d") ie node = some true ↔
        node.nearCrs = .FLAT)) ∧
    (node.mt = .GEO → node.geoPred = .INTERSECT →
      compatible gm (nm, .str "2d") ie node = some false) ∧
    (node.mt = .GEO → node.geoPred = .WITHIN → node.geoHasFlatRegion = true →
      compatible gm (nm, .str "2d") ie node = some true) ∧
    (node.mt = .GEO → node.geoPred = .WITHIN → node.geoHasFlatRegion = false →
      node.geoCap = none → compatible gm (nm, .str "2d") ie node = some false) ∧
    (∀ cap, node.mt = .GEO → node.geoPred = .WITHIN →
      node.geoHasFlatRegion = false → node.geoCap = some cap →
      cap.crs = .SPHERE →
      compatible gm (nm, .str "2d") ie node =
        some (twoDWontWrap gm cap.circle ie)) ∧
    (∀ (circle : Circle) (ysc xsc : Rat),
      ysc = gm.rad2deg circle.radius + gm.getErrorSphere
        ⟨(fieldWithDefault ie.infoObj "bits" 26).floor.toNat,
         fieldWithDefault ie.infoObj "max" 180,
         fieldWithDefault ie.infoObj "min" (-180),
         1024 * 1024 * 1024 * 4 /
           (fieldWithDefault ie.infoObj "max" 180 -
            fieldWithDefault ie.infoObj "min" (-180))⟩ →
      xsc = gm.computeXScanDistance circle.y ysc →
      (twoDWontWrap gm circle ie = true ↔
        (circle.x + xsc < 180 ∧ circle.x - xsc > -180 ∧
         circle.y + ysc < 90 ∧ circle.y - ysc > -90))) := by
  have hdisp : compatible gm (nm, .str "2d") ie node =
      compatibleSpecial gm "2d" ie node :=
    compatible_spec gm nm "2d" ie node hty (by decide)
  have hchain : compatibleSpecial gm "2d" ie node =
      (if node.mt = .GEO_NEAR then some (decide (node.nearCrs = .FLAT))
       else if node.mt = .GEO then
         if node.geoPred = .WITHIN then
           if node.geoHasFlatRegion then some true
           else
             match node.geoCap with
             | none => some false
             | some cap =>
               if cap.crs = .SPHERE then some (twoDWontWrap gm cap.circle ie)
               else none
         else some false
       else some false) := by
    unfold compatibleSpecial
    rw [if_neg (by decide), if_neg (by decide),
      if_pos (show "2d" = IndexNames.GEO_2D from rfl)]
  refine ⟨?_, ?_, ?_, ?_, ?_, ?_⟩
  · intro hmt
    rw [hdisp, hchain, if_pos hmt]
    simp
  · intro hmt hpred
    rw [hdisp, hchain, if_neg (by simp [hmt]), if_pos hmt,
      if_neg (by simp [hpred])]
  · intro hmt hpred hflat
    rw [hdisp, hchain, if_neg (by simp [hmt]), if_pos hmt, if_pos hpred,
      if_pos hflat]
  · intro hmt hpred hflat hcap
    rw [hdisp, hchain, if_neg (by simp [hmt]), if_pos hmt, if_pos hpred,
      if_neg (by simp [hflat]), hcap]
  · intro cap hmt hpred hflat hcap hcrs
    rw [hdisp, hchain, if_neg (by simp [hmt]), if_pos hmt, if_pos hpred,
      if_neg (by simp [hflat]), hcap]
    try dsimp only
    rw [if_pos hcrs]
  · intro circle ysc xsc hy hx
    subst hy
    subst hx
    unfold twoDWontWrap
    exact decide_eq_true_iff

/-- C7 witness: a flat GEO_NEAR leaf on the 2d index `{loc: "2d"}`. -/
theorem C7_twod_element_witness :
    (geoNearFlatW.mt = .GEO_NEAR →
      (compatible gmW ("loc", .str "2d") idx2dW geoNearFlatW = some true ↔
        geoNearFlatW.nearCrs = .FLAT)) ∧
    (geoNearFlatW.mt = .GEO → geoNearFlatW.geoPred = .INTERSECT →
      compatible gmW ("loc", .str "2d") idx2dW geoNearFlatW = some false) ∧
    (geoNearFlatW.mt = .GEO → geoNearFlatW.geoPred = .WITHIN →
      geoNearFlatW.geoHasFlatRegion = true →
      compatible gmW ("loc", .str "2d") idx2dW geoNearFlatW = some true) ∧
    (geoNearFlatW.mt = .GEO → geoNearFlatW.geoPred = .WITHIN →
      geoNearFlatW.geoHasFlatRegion = false → geoNearFlatW.geoCap = none →
      compatible gmW ("loc", .str "2d") idx2dW geoNearFlatW = some false) ∧
    (∀ cap, geoNearFlatW.mt = .GEO → geoNearFlatW.geoPred = .WITHIN →
      geoNearFlatW.geoHasFlatRegion = false → geoNearFlatW.geoCap = some cap →
      cap.crs = .SPHERE →
      compatible gmW ("loc", .str "2d") idx2dW geoNearFlatW =
        some (twoDWontWrap gmW cap.circle idx2dW)) ∧
    (∀ (circle : Circle) (ysc xsc : Rat),
      ysc = gmW.rad2deg circle.radius + gmW.getErrorSphere
        ⟨(fieldWithDefault idx2dW.infoObj "bits" 26).floor.toNat,
         fieldWithDefault idx2dW.infoObj "max" 180,
         fieldWithDefault idx2dW.infoObj "min" (-180),
         1024 * 1024 * 1024 * 4 /
           (fieldWithDefault idx2dW.infoObj "max" 180 -
            fieldWithDefault idx2dW.infoObj "min" (-180))⟩ →
      xsc = gmW.computeXScanDistance circle.y ysc →
      (twoDWontWrap gmW circle idx2dW = true ↔
        (circle.x + xsc < 180 ∧ circle.x - xsc > -180 ∧
         circle.y + ysc < 90 ∧ circle.y - ysc > -90))) :=
  C7_twod_element gmW "loc" idx2dW geoNearFlatW (by decide)

/-- C8: the NOT branch of the tagging pass gives the NOT's child a
structural copy of the NOT's own tag behind a fresh handle: the handles
differ, the copy has the same path and lists, and mutating the object
behind one handle never changes the object behind the other; at the value
level, the child's tag equals the parent's. -/
theorem C8_not_tag_structural_copy (st : TagStore) (rt : RelevantTag) :
    (rateTagNotStep st rt).1 ≠ (rateTagNotStep st rt).2.1 ∧
    (rateTagNotStep st rt).2.2.tags (rateTagNotStep st rt).2.1 =
      some ⟨rt.path, rt.first, rt.notFirst⟩ ∧
    (rateTagNotStep st rt).2.2.tags (rateTagNotStep st rt).1 = some rt ∧
    (∀ rt2, ((rateTagNotStep st rt).2.2.setAt (rateTagNotStep st rt).2.1
        rt2).tags (rateTagNotStep st rt).1 =
      (rateTagNotStep st rt).2.2.tags (rateTagNotStep st rt).1) ∧
    (∀ rt2, ((rateTagNotStep st rt).2.2.setAt (rateTagNotStep st rt).1
        rt2).tags (rateTagNotStep st rt).2.1 =
      (rateTagNotStep st rt).2.2.tags (rateTagNotStep st rt).2.1) ∧
    (∀ (gm : GeoMath) (m : MatchType) (p : String) (pl : Payload)
        (cs : MEList) (pfx : String) (indices : List IndexEntry)
        (t' : MatchExpression),
      m = .NOT → isBoundsGenerating (.node m p pl none cs) = true →
      rateIndices gm (.node m p pl none cs) pfx indices = some t' →
      t'.child0.getTag = t'.getTag) := by
  refine ⟨?_, ?_, ?_, ?_, ?_,
    fun gm m p pl cs pfx indices t' hm hbg hr =>
      rateIndices_not_clone gm m p pl cs pfx indices t' hm hbg hr⟩
  · simp only [rateTagNotStep, TagStore.alloc]
    omega
  · simp [rateTagNotStep, TagStore.alloc]
  · simp [rateTagNotStep, TagStore.alloc]
  · intro rt2
    simp [rateTagNotStep, TagStore.alloc, TagStore.setAt]
  · intro rt2
    simp [rateTagNotStep, TagStore.alloc, TagStore.setAt]

/-- C9 counterexample to the original claim: a TEXT-classified index with no
string sentinel in its key pattern does not abort the oracle's suffix
scan when the scan meets the leaf's path first — the oracle returns
not-usable instead. -/
theorem C9_counterexample :
    idxTextNoSentinelW.type = .INDEX_TEXT ∧
    idxTextNoSentinelW.keyPattern.all (fun e => !e.2.isStr) = true ∧
    compatible gmW ("a", .num 1) idxTextNoSentinelW leafGTaW = some false :=
  ⟨rfl, rfl, rfl⟩

/-- C9 (amended): the fatal aborts are: the tagging pass reaching a tagged
bounds-generating node; an unrecognized special-family string reaching the
oracle; the enforcer's prefix gather meeting a TEXT index with no string
sentinel (which then poisons the whole enforcement pass); and the oracle's
suffix scan — which aborts only when the key pattern has neither a
sentinel nor an element named like the leaf's path. -/
theorem C9_fatal_aborts (gm : GeoMath) (t : MatchExpression) (pfx : String)
    (indices : List IndexEntry) (rt : RelevantTag) (nm s : String)
    (ie : IndexEntry) (node : MatchExpression) (u : MatchExpression)
    (i : Nat) (ie2 : IndexEntry) (elt3 : String × BSONValue)
    (ie3 : IndexEntry) (node2 : MatchExpression) :
    (isBoundsGenerating t = true → t.getTag = some rt →
      rateIndices gm t pfx indices = none) ∧
    (ie.type ≠ .INDEX_BTREE → s ≠ IndexNames.HASHED →
      s ≠ IndexNames.GEO_2DSPHERE → s ≠ IndexNames.GEO_2D →
      s ≠ IndexNames.TEXT → s ≠ IndexNames.GEO_HAYSTACK → s ≠ "" →
      compatible gm (nm, .str s) ie node = none) ∧
    (ie2.keyPattern.all (fun e => !e.2.isStr) = true →
      textPrefixScan ie2.keyPattern = none) ∧
    (indices.get? i = some ie2 → ie2.type = .INDEX_TEXT →
      textPrefixScan ie2.keyPattern = none →
      stripInvalidAssignmentsToTextIndexes u indices = none) ∧
    (elt3.2.isStr = false → ie3.type = .INDEX_TEXT → ¬node2.mt = .EQ →
      ¬node2.mt = .GEO → ¬node2.mt = .GEO_NEAR → ¬node2.mt = .NOT →
      ie3.keyPattern.all
        (fun e => !e.2.isStr && !(decide (node2.path = e.1))) = true →
      compatible gm elt3 ie3 node2 = none) :=
  ⟨fun hbg htg => rateIndices_tagged_abort gm t pfx indices hbg rt htg,
   fun hty h1 h2 h3 h4 h5 h6 =>
     compatible_unknown_family gm nm s ie node hty ⟨h1, h2, h3, h4, h5, h6⟩,
   fun hall => textPrefixScan_none_all ie2.keyPattern hall,
   fun hget htext hscan => stripAllFrom_none indices 0 u i ie2 hget htext hscan,
   fun hstr htype hne hg1 hg2 hn hkp =>
     compatible_text_scan_abort gm elt3 ie3 node2 (Or.inl hstr) htype
       hne hg1 hg2 hn hkp⟩

/-- C10: the removal helper erases at most the first occurrence of the index
id from each of the tag's two lists, leaves every other id's count and the
tag's path unchanged, and an id occurring at least twice in a list
survives one removal. -/
theorem C10_remove_first_occurrence (node : MatchExpression) (idx : Nat)
    (rt : RelevantTag) (htg : node.getTag = some rt) :
    removeIndexRelevantTag node idx =
      some (node.withTag
        (some ⟨rt.path, rt.first.erase idx, rt.notFirst.erase idx⟩)) ∧
    (rt.first.erase idx).count idx = rt.first.count idx - 1 ∧
    (rt.notFirst.erase idx).count idx = rt.notFirst.count idx - 1 ∧
    (∀ j, j ≠ idx → (rt.first.erase idx).count j = rt.first.count j ∧
      (rt.notFirst.erase idx).count j = rt.notFirst.count j) ∧
    (2 ≤ rt.first.count idx → idx ∈ rt.first.erase idx) := by
  refine ⟨?_, ?_, ?_, fun j hj => ⟨?_, ?_⟩, fun h2 => ?_⟩
  · unfold removeIndexRelevantTag
    rw [htg]
  · rw [List.count_erase_self]
  · rw [List.count_erase_self]
  · rw [List.count_erase_of_ne hj]
  · rw [List.count_erase_of_ne hj]
  · have h3 : (rt.first.erase idx).count idx = rt.first.count idx - 1 := by
      rw [List.count_erase_self]
    exact List.count_pos_iff.mp (by omega)

/-- C10 witness: removal of index `0` from a tag listing it twice in
`first`, where one occurrence survives. -/
theorem C10_remove_first_occurrence_witness :
    removeIndexRelevantTag dupTagLeafW 0 =
      some (dupTagLeafW.withTag
        (some ⟨"a", ([0, 0] : List Nat).erase 0, ([] : List Nat).erase 0⟩)) ∧
    (([0, 0] : List Nat).erase 0).count 0 = ([0, 0] : List Nat).count 0 - 1 ∧
    (([] : List Nat).erase 0).count 0 = ([] : List Nat).count 0 - 1 ∧
    (∀ j, j ≠ 0 →
      ((([0, 0] : List Nat).erase 0).count j = ([0, 0] : List Nat).count j ∧
       ((([] : List Nat).erase 0)).count j = ([] : List Nat).count j)) ∧
    (2 ≤ ([0, 0] : List Nat).count 0 → 0 ∈ ([0, 0] : List Nat).erase 0) :=
  C10_remove_first_occurrence dupTagLeafW 0 ⟨"a", [0, 0], []⟩ rfl

end MongoIx
